import Mathlib

/-!
Verification of the sous reconciliation core: identity model
(source_version.go), rectifier, and name cache.

Go strings are modelled as Lean strings.  Unicode NFC normalization
(golang.org/x/text/unicode/norm, applied at the top of parseChunks) is kept
abstract: every parsing definition takes the normalization as an explicit
function parameter nfc, and theorems carry the hypothesis that nfc fixes the
concrete inputs involved (true of real NFC on every ASCII string).

Go panics (index out of range) are modelled by Option: a result of none marks
a panic, some marks normal return.  Fallible Go returns (value, error) are
modelled with Except.
-/

namespace Sous

/-- Model of the external semv library version value
(github.com/samsalisbury/semv): major, minor, patch numbers, a pre-release
string and a build metadata string. -/
structure SemvVersion where
  major : Nat
  minor : Nat
  patch : Nat
  pre : String
  meta : String
deriving DecidableEq, Repr

/-- Model of semv Format with the MMPPre format string: major.minor.patch
followed by -pre when the pre-release part is nonempty; build metadata is not
printed. -/
def SemvVersion.formatMMPPre (v : SemvVersion) : String :=
  toString v.major ++ "." ++ toString v.minor ++ "." ++ toString v.patch ++
    (if v.pre = "" then "" else "-" ++ v.pre)

/-- Model of the semv default rendering (used by the percent-s verb in Go):
major.minor.patch, -pre when nonempty, +meta when nonempty. -/
def SemvVersion.vString (v : SemvVersion) : String :=
  v.formatMMPPre ++ (if v.meta = "" then "" else "+" ++ v.meta)

/-- Model of semv Equals as described by the spec: numeric components and
pre-release compared, build metadata ignored. -/
def SemvVersion.equals (a b : SemvVersion) : Bool :=
  a.major = b.major && a.minor = b.minor && a.patch = b.patch && a.pre = b.pre

/-- Greedily read leading decimal digits. -/
def takeDigits : List Char → (List Char × List Char)
  | [] => ([], [])
  | c :: cs =>
    if c.isDigit then
      let (ds, rest) := takeDigits cs
      (c :: ds, rest)
    else ([], c :: cs)

/-- Numeric value of a digit list (most significant first). -/
def digitsToNat (ds : List Char) : Nat :=
  ds.foldl (fun acc c => acc * 10 + (c.toNat - '0'.toNat)) 0

/-- Read a natural number component; fails when no digit is present. -/
def parseNatComp (cs : List Char) : Option (Nat × List Char) :=
  let (ds, rest) := takeDigits cs
  if ds = [] then none else some (digitsToNat ds, rest)

/-- Split off everything up to the first occurrence of a character. -/
def spanNot (d : Char) : List Char → (List Char × List Char)
  | [] => ([], [])
  | c :: cs =>
    if c = d then ([], c :: cs)
    else
      let (xs, rest) := spanNot d cs
      (c :: xs, rest)

/-- Model of semv Parse: strict major.minor.patch with optional -pre and
optional +meta suffixes.  The error value is a message string. -/
def semvParse (s : String) : Except String SemvVersion :=
  match parseNatComp s.data with
  | none => .error ("unexpected character in version: " ++ s)
  | some (ma, r1) =>
    match r1 with
    | '.' :: r2 =>
      match parseNatComp r2 with
      | none => .error ("unexpected character in version: " ++ s)
      | some (mi, r3) =>
        match r3 with
        | '.' :: r4 =>
          match parseNatComp r4 with
          | none => .error ("unexpected character in version: " ++ s)
          | some (pa, r5) =>
            let (preCs, r6) :=
              match r5 with
              | '-' :: r => spanNot '+' r
              | _ => ([], r5)
            match r6 with
            | [] => .ok ⟨ma, mi, pa, String.mk preCs, ""⟩
            | '+' :: r7 => .ok ⟨ma, mi, pa, String.mk preCs, String.mk r7⟩
            | _ => .error ("unexpected character in version: " ++ s)
        | _ => .error ("version missing patch component: " ++ s)
    | _ => .error ("version missing minor component: " ++ s)

/-- SourceLocation: repository URL plus repository offset (source_version.go).
Both fields are Go strings. -/
structure SourceLocation where
  repoURL : String
  repoOffset : String
deriving DecidableEq, Repr

/-- SourceVersion: repository URL, semantic version and repository offset
(source_version.go). -/
structure SourceVersion where
  repoURL : String
  version : SemvVersion
  repoOffset : String
deriving DecidableEq, Repr

/-- SourceLocation.String: the repo URL alone when the offset is empty,
otherwise repo, a colon, offset. -/
def SourceLocation.string (sl : SourceLocation) : String :=
  if sl.repoOffset = "" then sl.repoURL
  else sl.repoURL ++ ":" ++ sl.repoOffset

/-- SourceVersion.String: location part rendered as in SourceLocation.String,
then a space, then the version. -/
def SourceVersion.string (sv : SourceVersion) : String :=
  if sv.repoOffset = "" then sv.repoURL ++ " " ++ sv.version.vString
  else sv.repoURL ++ ":" ++ sv.repoOffset ++ " " ++ sv.version.vString

/-- SourceVersion.CanonicalName: project a SourceVersion to its
SourceLocation. -/
def SourceVersion.canonicalName (sv : SourceVersion) : SourceLocation :=
  ⟨sv.repoURL, sv.repoOffset⟩

/-- SourceVersion.Equal: repo and offset by string equality, version by semv
Equals. -/
def SourceVersion.equal (sv o : SourceVersion) : Bool :=
  sv.repoURL = o.repoURL && sv.repoOffset = o.repoOffset && sv.version.equals o.version

/-- Typed parse errors of source_version.go that the parsing functions can
produce, each carrying the offending input (semvError carries the message of
the underlying version parse failure). -/
inductive SourceError where
  | missingRepo (parsing : String)
  | includesVersion (parsing : String)
  | semvError (msg : String)
deriving DecidableEq, Repr

/-- Model of Go strings.Split with a one-character separator: accumulator
based splitter. -/
def splitOnCharAux (d : Char) : List Char → List Char → List (List Char)
  | [], acc => [acc.reverse]
  | c :: cs, acc =>
    if c = d then acc.reverse :: splitOnCharAux d cs []
    else splitOnCharAux d cs (c :: acc)

/-- Split a character list on every occurrence of a character; always returns
at least one piece, like Go strings.Split with a nonempty separator. -/
def splitOnChar (d : Char) (s : List Char) : List (List Char) :=
  splitOnCharAux d s []

/-- ASCII letter test used by parseChunks to decide whether the first
character is part of the repo or a custom delimiter. -/
def isAsciiLetter (c : Char) : Bool :=
  ('A' ≤ c && c ≤ 'Z') || ('a' ≤ c && c ≤ 'z')

/-- parseChunks: normalize, then split the input on the default comma
delimiter, or on the leading character when that character is not an ASCII
letter (the leading delimiter itself is stripped).  Indexing the first byte of
an empty string is an out-of-range panic, modelled as none. -/
def parseChunks (nfc : String → String) (sourceStr : String) : Option (List String) :=
  match (nfc sourceStr).data with
  | [] => none
  | c :: rest =>
    if isAsciiLetter c then
      some ((splitOnChar ',' (c :: rest)).map String.mk)
    else
      some ((splitOnChar c rest).map String.mk)

/-- sourceVersionFromChunks: chunk 0 is the repo (empty repo is a
MissingRepo error), chunk 1 is parsed as a semantic version, chunk 2, when
present, is the offset.  The unconditional accesses of chunks 0 and 1 panic
(none) when the chunk list is too short. -/
def sourceVersionFromChunks (source : String) (chunks : List String) :
    Option (Except SourceError SourceVersion) :=
  match chunks with
  | [] => none
  | c0 :: rest =>
    if c0 = "" then some (.error (.missingRepo source))
    else
      match rest with
      | [] => none
      | c1 :: rest2 =>
        match semvParse c1 with
        | .error e => some (.error (.semvError e))
        | .ok v =>
          some (.ok ⟨c0, v, match rest2 with | [] => "" | c2 :: _ => c2⟩)

/-- canonicalNameFromChunks: more than two chunks is an IncludesVersion
error; an empty chunk 0 is a MissingRepo error; chunk 1, when present, is the
offset.  Accessing chunk 0 of an empty chunk list panics (none). -/
def canonicalNameFromChunks (source : String) (chunks : List String) :
    Option (Except SourceError SourceLocation) :=
  if chunks.length > 2 then some (.error (.includesVersion source))
  else
    match chunks with
    | [] => none
    | c0 :: rest =>
      if c0 = "" then some (.error (.missingRepo source))
      else some (.ok ⟨c0, match rest with | [] => "" | c1 :: _ => c1⟩)

/-- ParseSourceVersion: parseChunks then sourceVersionFromChunks on the
original input string. -/
def ParseSourceVersion (nfc : String → String) (source : String) :
    Option (Except SourceError SourceVersion) :=
  match parseChunks nfc source with
  | none => none
  | some chunks => sourceVersionFromChunks source chunks

/-- ParseCanonicalName: parseChunks then canonicalNameFromChunks on the
original input string. -/
def ParseCanonicalName (nfc : String → String) (source : String) :
    Option (Except SourceError SourceLocation) :=
  match parseChunks nfc source with
  | none => none
  | some chunks => canonicalNameFromChunks source chunks

/-- Canonical comma-joined chunk form of a SourceVersion, written after the
words of the spec (section 4.3): repo, delimiter, version and, when the offset
is nonempty, delimiter and offset, with the default comma delimiter.  This is
the spec-side serialization that the parser actually accepts; it is compared
against the rendering the code implements (SourceVersion.string). -/
def commaCanonicalForm (sv : SourceVersion) : String :=
  sv.repoURL ++ "," ++ sv.version.vString ++
    (if sv.repoOffset = "" then "" else "," ++ sv.repoOffset)

/-- Modelled from the spec: Resources is a value map compared by value
equality (its Go definition is not among the provided sources). -/
abbrev Resources := List (String × String)

/-- Modelled from the spec: Env is a value map compared by value equality
(its Go definition is not among the provided sources). -/
abbrev Env := List (String × String)

/-- Modelled from the spec: Volumes is an opaque list value (its Go
definition is not among the provided sources). -/
abbrev Volumes := List String

/-- Modelled from the spec: Deployment carries cluster, request id, instance
count, resources, environment, volumes (reached in Go through the embedded
DeployConfig) and a SourceVersion; its Go struct definition is not among the
provided sources, only its field uses are. -/
structure Deployment where
  cluster : String
  requestID : String
  numInstances : Int
  resources : Resources
  env : Env
  volumes : Volumes
  sourceVersion : SourceVersion
deriving DecidableEq, Repr

/-- DeploymentPair: the prior and post deployments of one modification. -/
structure DeploymentPair where
  prior : Deployment
  post : Deployment
deriving DecidableEq, Repr

/-- idify: drop every occurrence of the characters matched by the regular
expression class dash, slash, colon. -/
def idify (s : String) : String :=
  String.mk (s.data.filter (fun c => !(c = '-' || c = '/' || c = ':')))

/-- computeRequestID: an explicit nonempty RequestID is used unchanged,
otherwise the idified canonical-name string of the SourceVersion. -/
def computeRequestID (d : Deployment) : String :=
  if d.requestID.length > 0 then d.requestID
  else idify (d.sourceVersion.canonicalName.string)

/-- changesReq: a modify pair needs a Scale call when the instance counts
differ. -/
def changesReq (pair : DeploymentPair) : Bool :=
  pair.prior.numInstances ≠ pair.post.numInstances

/-- changesDep: a modify pair needs a Deploy call unless source version,
resources and environment are all equal. -/
def changesDep (pair : DeploymentPair) : Bool :=
  !(pair.prior.sourceVersion.equal pair.post.sourceVersion &&
    pair.prior.resources = pair.post.resources &&
    pair.prior.env = pair.post.env)

/-- Abstract Go error value carried by failing client calls. -/
abbrev GoErr := String

/-- The typed errors the rectifier emits on its output channel. -/
inductive RectificationError where
  | createError (d : Deployment) (e : GoErr)
  | deleteError (d : Deployment) (e : GoErr)
  | changeError (pair : DeploymentPair) (e : GoErr)
deriving DecidableEq, Repr

/-- IntendedDeployment of a rectification error: the created deployment, none
for a delete, the post deployment of a change. -/
def RectificationError.intendedDeployment : RectificationError → Option Deployment
  | .createError d _ => some d
  | .deleteError _ _ => none
  | .changeError pair _ => some pair.post

/-- ExistingDeployment of a rectification error: none for a create, the
deleted deployment, the prior deployment of a change. -/
def RectificationError.existingDeployment : RectificationError → Option Deployment
  | .createError _ _ => none
  | .deleteError d _ => some d
  | .changeError pair _ => some pair.prior

/-- RectificationClient modelled as a record of pure functions: each method
returns either an error or its result, deterministically in its arguments. -/
structure RectClient where
  imageName : Deployment → Except GoErr String
  postRequest : String → String → Int → Option GoErr
  deploy : String → String → String → String → Resources → Env → Volumes → Option GoErr
  scale : String → String → Int → String → Option GoErr
  deleteRequest : String → String → String → Option GoErr

/-- One observable scheduler-client call, with the arguments the rectifier
passed. -/
inductive SchedCall where
  | imageNameCall (d : Deployment)
  | postRequestCall (cluster reqID : String) (n : Int)
  | deployCall (cluster depID reqID img : String) (r : Resources) (e : Env) (v : Volumes)
  | scaleCall (cluster reqID : String) (n : Int) (msg : String)
  | deleteRequestCall (cluster reqID msg : String)
deriving DecidableEq, Repr

/-- Loop body of rectifyCreates for one created deployment: resolve the image
name, post the request, deploy with a fresh deploy id; the first failing step
emits a CreateError and ends processing of this deployment.  Returns the calls
made and the errors emitted. -/
def rectifyCreateOne (c : RectClient) (depID : String) (d : Deployment) :
    List SchedCall × List RectificationError :=
  match c.imageName d with
  | .error e => ([.imageNameCall d], [.createError d e])
  | .ok name =>
    let reqID := computeRequestID d
    match c.postRequest d.cluster reqID d.numInstances with
    | some e =>
      ([.imageNameCall d, .postRequestCall d.cluster reqID d.numInstances],
       [.createError d e])
    | none =>
      match c.deploy d.cluster depID reqID name d.resources d.env d.volumes with
      | some e =>
        ([.imageNameCall d, .postRequestCall d.cluster reqID d.numInstances,
          .deployCall d.cluster depID reqID name d.resources d.env d.volumes],
         [.createError d e])
      | none =>
        ([.imageNameCall d, .postRequestCall d.cluster reqID d.numInstances,
          .deployCall d.cluster depID reqID name d.resources d.env d.volumes],
         [])

/-- rectifyCreates: process the created stream in order; gen k, gen (k+1), ...
supply the fresh random deploy ids (newDepID is modelled as a generator
indexed by a counter). -/
def rectifyCreates (c : RectClient) (gen : Nat → String) (k : Nat) :
    List Deployment → List SchedCall × List RectificationError
  | [] => ([], [])
  | d :: ds =>
    let (cs, es) := rectifyCreateOne c (gen k) d
    let (cs2, es2) := rectifyCreates c gen (k + 1) ds
    (cs ++ cs2, es ++ es2)

/-- rectifyDeletes loop body: one DeleteRequest call with the fixed audit
message; a failure emits a DeleteError. -/
def rectifyDeleteOne (c : RectClient) (d : Deployment) :
    List SchedCall × List RectificationError :=
  let reqID := computeRequestID d
  let msg := "deleting request for removed manifest"
  match c.deleteRequest d.cluster reqID msg with
  | some e => ([.deleteRequestCall d.cluster reqID msg], [.deleteError d e])
  | none => ([.deleteRequestCall d.cluster reqID msg], [])

/-- Loop body of rectifyModifys for one pair: when the instance counts differ,
Scale first, and a Scale failure emits one ChangeError and skips the rest of
the body; then, when source version, resources or env differ, resolve the
image name and Deploy, each failure emitting one ChangeError. -/
def rectifyModifyOne (c : RectClient) (depID : String) (pair : DeploymentPair) :
    List SchedCall × List RectificationError :=
  let scalePart : List SchedCall × Option (Option GoErr) :=
    if changesReq pair then
      let reqID := computeRequestID pair.post
      match c.scale pair.post.cluster reqID pair.post.numInstances "rectified scaling" with
      | some e => ([.scaleCall pair.post.cluster reqID pair.post.numInstances "rectified scaling"],
                   some (some e))
      | none => ([.scaleCall pair.post.cluster reqID pair.post.numInstances "rectified scaling"],
                 some none)
    else ([], none)
  match scalePart with
  | (cs, some (some e)) => (cs, [.changeError pair e])
  | (cs, _) =>
    if changesDep pair then
      match c.imageName pair.post with
      | .error e => (cs ++ [.imageNameCall pair.post], [.changeError pair e])
      | .ok name =>
        let reqID := computeRequestID pair.prior
        match c.deploy pair.post.cluster depID reqID name pair.post.resources
            pair.post.env pair.post.volumes with
        | some e =>
          (cs ++ [.imageNameCall pair.post,
            .deployCall pair.post.cluster depID reqID name pair.post.resources
              pair.post.env pair.post.volumes],
           [.changeError pair e])
        | none =>
          (cs ++ [.imageNameCall pair.post,
            .deployCall pair.post.cluster depID reqID name pair.post.resources
              pair.post.env pair.post.volumes],
           [])
    else (cs, [])

/-- rectifyModifys: process the modified stream in order, one pair at a time,
with gen supplying fresh deploy ids. -/
def rectifyModifys (c : RectClient) (gen : Nat → String) (k : Nat) :
    List DeploymentPair → List SchedCall × List RectificationError
  | [] => ([], [])
  | p :: ps =>
    let (cs, es) := rectifyModifyOne c (gen k) p
    let (cs2, es2) := rectifyModifys c gen (k + 1) ps
    (cs ++ cs2, es ++ es2)

/-- The three rectifier workers spawned by Rectify, one per change kind. -/
inductive WIdx where
  | createdW
  | deletedW
  | modifiedW
deriving DecidableEq, Repr

/-- State of one worker goroutine: the errors it still has to send (its input
channel already determines them, e.g. as the error component of
rectifyCreates), and whether it has called wg.Done. -/
structure WState where
  rem : List RectificationError
  finished : Bool
deriving DecidableEq, Repr

/-- Global state of a Rectify run: the three workers, the WaitGroup counter
and whether the shared error channel has been closed. -/
structure RState where
  w0 : WState
  w1 : WState
  w2 : WState
  wg : Nat
  closed : Bool
deriving DecidableEq, Repr

/-- Worker lookup by kind. -/
def RState.getW (s : RState) : WIdx → WState
  | .createdW => s.w0
  | .deletedW => s.w1
  | .modifiedW => s.w2
/-- Worker replacement by kind. -/
def RState.setW (s : RState) (i : WIdx) (w : WState) : RState :=
  match i with
  | .createdW => ⟨w, s.w1, s.w2, s.wg, s.closed⟩
  | .deletedW => ⟨s.w0, w, s.w2, s.wg, s.closed⟩
  | .modifiedW => ⟨s.w0, s.w1, w, s.wg, s.closed⟩

/-- State after worker i calls wg.Done: the worker is marked finished and the
WaitGroup counter drops by one. -/
def RState.finishW (s : RState) (i : WIdx) : RState :=
  match i with
  | .createdW => ⟨⟨[], true⟩, s.w1, s.w2, s.wg - 1, s.closed⟩
  | .deletedW => ⟨s.w0, ⟨[], true⟩, s.w2, s.wg - 1, s.closed⟩
  | .modifiedW => ⟨s.w0, s.w1, ⟨[], true⟩, s.wg - 1, s.closed⟩

/-- State after the closer goroutine closes the error channel. -/
def RState.closeC (s : RState) : RState :=
  ⟨s.w0, s.w1, s.w2, s.wg, true⟩

/-- Observable events of a Rectify run: a worker sending one error on the
shared channel, a worker calling wg.Done, and the closer goroutine closing the
channel after wg.Wait. -/
inductive REvent where
  | send (i : WIdx) (e : RectificationError)
  | finish (i : WIdx)
  | closeEvt
deriving DecidableEq, Repr

/-- Interleaving step relation for Rectify (part_000 lines 123 to 134): an
unfinished worker with pending output sends its next error; an unfinished
worker with no pending output calls wg.Done, decrementing the counter; the
closer closes the channel once the counter reaches zero.  Nothing in the
relation forbids a send after closing; that this cannot happen is proved. -/
inductive RStep : RState → REvent → RState → Prop where
  | send (s : RState) (i : WIdx) (e : RectificationError) (rest : List RectificationError)
      (hrem : (s.getW i).rem = e :: rest) (hfin : (s.getW i).finished = false) :
      RStep s (.send i e) (s.setW i ⟨rest, false⟩)
  | finish (s : RState) (i : WIdx)
      (hrem : (s.getW i).rem = []) (hfin : (s.getW i).finished = false) :
      RStep s (.finish i) (s.finishW i)
  | closeStep (s : RState) (hwg : s.wg = 0) (hcl : s.closed = false) :
      RStep s .closeEvt s.closeC

/-- Finite interleaved executions: reflexive-transitive closure of RStep with
the event list recorded. -/
inductive RTrace : RState → List REvent → RState → Prop where
  | nil (s : RState) : RTrace s [] s
  | cons {s s2 s3 : RState} {e : REvent} {es : List REvent} :
      RStep s e s2 → RTrace s2 es s3 → RTrace s (e :: es) s3

/-- Initial state of Rectify on the three (already drained) input streams:
every worker still has all its output to send, wg.Add(3) has run, the channel
is open. -/
def initState (c0 c1 c2 : List RectificationError) : RState :=
  ⟨⟨c0, false⟩, ⟨c1, false⟩, ⟨c2, false⟩, 3, false⟩

/-- Number of workers that have not yet called wg.Done. -/
def unfinishedCount (s : RState) : Nat :=
  (if s.w0.finished then 0 else 1) + (if s.w1.finished then 0 else 1) +
    (if s.w2.finished then 0 else 1)

/-- Invariant of every reachable Rectify state: the WaitGroup counter counts
the unfinished workers, a finished worker has nothing left to send, and the
channel is closed only once every worker has finished. -/
def RInv (s : RState) : Prop :=
  s.wg = unfinishedCount s ∧
  (∀ i : WIdx, (s.getW i).finished = true → (s.getW i).rem = []) ∧
  (s.closed = true → ∀ i : WIdx, (s.getW i).finished = true)

/-- The errors a given worker sent during a trace, in order. -/
def sendsOf (i : WIdx) (tr : List REvent) : List RectificationError :=
  tr.filterMap (fun e =>
    match e with
    | .send j x => if j = i then some x else none
    | _ => none)

/-- Row of the docker_repo_name table: id and repository name, name unique
with replace on conflict. -/
structure RepoNameRow where
  id : Nat
  name : String
deriving DecidableEq, Repr

/-- Row of the docker_search_location table: id, repo and offset, the pair
unique with replace on conflict. -/
structure LocationRow where
  id : Nat
  repo : String
  offset : String
deriving DecidableEq, Repr

/-- Row of the repo_through_location join table, composite key with replace
on conflict, cascading from both referenced tables. -/
structure RTLRow where
  repoNameId : Nat
  locationId : Nat
deriving DecidableEq, Repr

/-- Row of the docker_search_metadata table: id, location reference, etag,
canonical name and version, with (location, version) unique replace on
conflict. -/
structure MetadataRow where
  id : Nat
  locationId : Nat
  etag : String
  canonicalName : String
  version : String
deriving DecidableEq, Repr

/-- Row of the docker_search_name table: id, metadata reference and image
name, name unique with replace on conflict. -/
structure NameRow where
  id : Nat
  metadataId : Nat
  name : String
deriving DecidableEq, Repr

/-- Functional model of the five-table sqlite store of the name cache, with
per-table autoincrement counters. -/
structure DB where
  nextRepoNameId : Nat
  nextLocationId : Nat
  nextMetadataId : Nat
  nextNameId : Nat
  repoNames : List RepoNameRow
  locations : List LocationRow
  repoThroughLocation : List RTLRow
  metadata : List MetadataRow
  names : List NameRow
deriving DecidableEq, Repr

/-- The freshly created store: all tables empty. -/
def emptyDB : DB := ⟨0, 0, 0, 0, [], [], [], [], []⟩

/-- Well-formedness of a store reachable through the insert operations: every
row id and every foreign key is below the corresponding autoincrement
counter. -/
def DBInv (db : DB) : Prop :=
  (∀ l ∈ db.locations, l.id < db.nextLocationId) ∧
  (∀ m ∈ db.metadata, m.id < db.nextMetadataId ∧ m.locationId < db.nextLocationId) ∧
  (∀ n ∈ db.names, n.metadataId < db.nextMetadataId)

/-- Insert into docker_repo_name with replace on conflict: a conflicting row
with the same name is deleted, the deletion cascading into the join table;
returns the new row id (LastInsertId). -/
def insertRepoName (db : DB) (name : String) : DB × Nat :=
  let delIds := (db.repoNames.filter (fun r => r.name == name)).map (fun r => r.id)
  ({ db with
      repoNames := db.repoNames.filter (fun r => !(r.name == name)) ++
        [⟨db.nextRepoNameId, name⟩],
      repoThroughLocation :=
        db.repoThroughLocation.filter (fun r => !(delIds.contains r.repoNameId)),
      nextRepoNameId := db.nextRepoNameId + 1 },
   db.nextRepoNameId)

/-- Insert into docker_search_location with replace on conflict: a row with
the same (repo, offset) is deleted, cascading into the join table, the
metadata table and, transitively, the names table. -/
def insertLocation (db : DB) (repo offset : String) : DB × Nat :=
  let delLoc := (db.locations.filter (fun l => l.repo == repo && l.offset == offset)).map
    (fun l => l.id)
  let delMeta := (db.metadata.filter (fun m => delLoc.contains m.locationId)).map
    (fun m => m.id)
  ({ db with
      locations := db.locations.filter (fun l => !(l.repo == repo && l.offset == offset)) ++
        [⟨db.nextLocationId, repo, offset⟩],
      repoThroughLocation :=
        db.repoThroughLocation.filter (fun r => !(delLoc.contains r.locationId)),
      metadata := db.metadata.filter (fun m => !(delLoc.contains m.locationId)),
      names := db.names.filter (fun n => !(delMeta.contains n.metadataId)),
      nextLocationId := db.nextLocationId + 1 },
   db.nextLocationId)

/-- Insert into repo_through_location with replace on conflict on the
composite primary key. -/
def insertRTL (db : DB) (nid lid : Nat) : DB :=
  { db with
      repoThroughLocation :=
        db.repoThroughLocation.filter
          (fun r => !(r.repoNameId == nid && r.locationId == lid)) ++ [⟨nid, lid⟩] }

/-- Insert into docker_search_metadata with replace on conflict on
(location, version), cascading the deletion into the names table. -/
def insertMetadata (db : DB) (lid : Nat) (etag cname version : String) : DB × Nat :=
  let delMeta := (db.metadata.filter
    (fun m => m.locationId == lid && m.version == version)).map (fun m => m.id)
  ({ db with
      metadata := db.metadata.filter
        (fun m => !(m.locationId == lid && m.version == version)) ++
        [⟨db.nextMetadataId, lid, etag, cname, version⟩],
      names := db.names.filter (fun n => !(delMeta.contains n.metadataId)),
      nextMetadataId := db.nextMetadataId + 1 },
   db.nextMetadataId)

/-- Insert into docker_search_name with replace on conflict: an existing row
with the same name is replaced. -/
def insertName (db : DB) (mid : Nat) (name : String) : DB :=
  { db with
      names := db.names.filter (fun n => !(n.name == name)) ++
        [⟨db.nextNameId, mid, name⟩],
      nextNameId := db.nextNameId + 1 }

/-- Error values travelling through the name cache, matching the Go error
types: the expected registry and cache-miss signals plus a catch-all carrying
a message for every other error value. -/
inductive NCErr where
  | notModified
  | noImageNameFound (sv : SourceVersion)
  | noSourceVersionFound (imgName : String)
  | otherErr (msg : String)
deriving DecidableEq, Repr

/-- Registry image metadata: labels, etag, canonical name and all known
names. -/
structure ImageMetadata where
  labels : List (String × String)
  etag : String
  canonicalName : String
  allNames : List String
deriving DecidableEq, Repr

/-- Model of a parsed docker reference (github.com/docker/distribution):
only its repository name component is consumed by the code. -/
structure DockerRef where
  name : String
deriving DecidableEq, Repr

/-- The external collaborators of the name cache: the registry client
(GetImageMetadata, AllTags) and the docker reference library (ParseNamed,
WithTag), each modelled as a pure function. -/
structure NCExt where
  getImageMetadata : String → String → Except NCErr ImageMetadata
  allTags : String → Except NCErr (List String)
  parseNamed : String → Option DockerRef
  withTag : DockerRef → String → Option String

/-- Observable name-cache activity: registry calls, sqlite insert statements
and the lookups GetImageName performs on the metadata tables. -/
inductive NCEvent where
  | regGetImageMetadata (imgName etag : String)
  | regAllTags (repo : String)
  | insRepoName (name : String)
  | insLocation (repo offset : String)
  | insRTL (repoNameId locationId : Nat)
  | insMetadata (locationId : Nat) (etag cname version : String)
  | insName (metadataId : Nat) (name : String)
  | lookupSV (sv : SourceVersion)
deriving DecidableEq, Repr

/-- Rows of the natural join used by dbQueryOnName, as (etag, repo, offset,
version, canonicalName) tuples, restricted to the given image name. -/
def nameJoinRows (db : DB) (inn : String) :
    List (String × String × String × String × String) :=
  db.names.flatMap (fun n =>
    db.metadata.flatMap (fun m =>
      db.locations.filterMap (fun l =>
        if n.name == inn && n.metadataId == m.id && m.locationId == l.id then
          some (m.etag, l.repo, l.offset, m.version, m.canonicalName)
        else none)))

/-- dbQueryOnName: QueryRow takes the first joined row; no row is the
NoSourceVersionFound outcome. -/
def dbQueryOnName (db : DB) (inn : String) :
    Except NCErr (String × String × String × String × String) :=
  match nameJoinRows db inn with
  | [] => .error (.noSourceVersionFound inn)
  | r :: _ => .ok r

/-- Rows of the join used by dbQueryOnSL: names of alias repositories
recorded for a source location. -/
def slJoinRows (db : DB) (sl : SourceLocation) : List String :=
  db.repoNames.flatMap (fun rn =>
    db.repoThroughLocation.flatMap (fun rtl =>
      db.locations.filterMap (fun l =>
        if rtl.repoNameId == rn.id && rtl.locationId == l.id &&
            l.repo == sl.repoURL && l.offset == sl.repoOffset then
          some rn.name
        else none)))

/-- dbQueryOnSL: all alias repository names for a location; an empty result
is an error (fmt.Errorf no repos found), not a typed cache-miss signal. -/
def dbQueryOnSL (db : DB) (sl : SourceLocation) : Except NCErr (List String) :=
  let rs := slJoinRows db sl
  if rs = [] then .error (.otherErr ("no repos found for " ++ sl.string))
  else .ok rs

/-- Rows of the join used by dbQueryOnSV, as (canonicalName, name) pairs,
restricted to the location and version of the given SourceVersion.  The
version is compared against the full rendering of the version, including
build metadata. -/
def svJoinRows (db : DB) (sv : SourceVersion) : List (String × String) :=
  db.names.flatMap (fun n =>
    db.metadata.flatMap (fun m =>
      db.locations.filterMap (fun l =>
        if n.metadataId == m.id && m.locationId == l.id &&
            l.repo == sv.repoURL && l.offset == sv.repoOffset &&
            m.version == sv.version.vString then
          some (m.canonicalName, n.name)
        else none)))

/-- dbQueryOnSV: scan all joined rows; the returned canonical name is the one
of the last row scanned; no row is the NoImageNameFound outcome. -/
def dbQueryOnSV (db : DB) (sv : SourceVersion) :
    Except NCErr (String × List String) :=
  if h : svJoinRows db sv = [] then .error (.noImageNameFound sv)
  else .ok (((svJoinRows db sv).getLast h).1, (svJoinRows db sv).map (fun r => r.2))

/-- Modelled from the spec: the four docker label keys consumed by
SourceVersionFromLabels (their defining file is not among the provided
sources); only their distinctness matters. -/
def DockerRepoLabel : String := "com.opentable.sous.repo_url"

/-- Modelled from the spec: the docker version label key. -/
def DockerVersionLabel : String := "com.opentable.sous.version"

/-- Modelled from the spec: the docker revision label key. -/
def DockerRevisionLabel : String := "com.opentable.sous.revision"

/-- Modelled from the spec: the docker path label key. -/
def DockerPathLabel : String := "com.opentable.sous.repo_offset"

/-- First value bound to a key in a label map. -/
def lookupLabel (labels : List (String × String)) (k : String) : Option String :=
  (labels.find? (fun p => p.1 == k)).map (fun p => p.2)

/-- SourceVersionFromLabels: all four label keys are required (missing keys
are reported together as one error), the version label is parsed as a
semantic version, and its build metadata field is set to the revision
label. -/
def SourceVersionFromLabels (labels : List (String × String)) :
    Except NCErr SourceVersion :=
  match lookupLabel labels DockerRepoLabel, lookupLabel labels DockerVersionLabel,
      lookupLabel labels DockerRevisionLabel, lookupLabel labels DockerPathLabel with
  | some r, some vs, some rev, some p =>
    match semvParse vs with
    | .error e => .error (.otherErr e)
    | .ok v => .ok ⟨r, { v with meta := rev }, p⟩
  | _, _, _, _ => .error (.otherErr "Missing labels on manifest")

/-- makeSourceVersion: parse the cached version string and rebuild a
SourceVersion from the cached repo and offset. -/
def makeSourceVersion (repo offset version : String) : Except NCErr SourceVersion :=
  match semvParse version with
  | .error e => .error (.otherErr e)
  | .ok v => .ok ⟨repo, v, offset⟩

/-- The zero SourceVersion value of Go. -/
def svZero : SourceVersion := ⟨"", ⟨0, 0, 0, "", ""⟩, ""⟩

/-- dbInsert: parse the image name, then insert, in order, the repo name, the
location, the join row, the metadata row (storing the version formatted as
major.minor.patch with pre-release but without build metadata) and the name
row.  Returns the new store and the insert statements executed. -/
def dbInsert (ext : NCExt) (db : DB) (sv : SourceVersion) (inn etag : String) :
    Except NCErr DB × List NCEvent :=
  match ext.parseNamed inn with
  | none => (.error (.otherErr ("bad image name " ++ inn)), [])
  | some ref =>
    let p1 := insertRepoName db ref.name
    let p2 := insertLocation p1.1 sv.repoURL sv.repoOffset
    let db3 := insertRTL p2.1 p1.2 p2.2
    let p4 := insertMetadata db3 p2.2 etag inn sv.version.formatMMPPre
    let db5 := insertName p4.1 p4.2 inn
    (.ok db5,
     [.insRepoName ref.name, .insLocation sv.repoURL sv.repoOffset,
      .insRTL p1.2 p2.2, .insMetadata p2.2 etag inn sv.version.formatMMPPre,
      .insName p4.2 inn])

/-- dbAddNames: resolve the metadata row of the canonical name (QueryRow
takes the first match), then insert one name row per alias. -/
def dbAddNames (db : DB) (cn : String) (ins : List String) :
    Except NCErr DB × List NCEvent :=
  match db.metadata.find? (fun m => m.canonicalName == cn) with
  | none => (.error (.otherErr "no metadata row for canonical name"), [])
  | some m =>
    (.ok (ins.foldl (fun d n => insertName d m.id n) db),
     ins.map (fun n => .insName m.id n))

/-- Continuation of GetSourceVersion after the local lookup: the conditional
registry fetch, then, on fresh metadata, the label parse, the insert and the
alias registration. -/
def getSourceVersionAfterLookup (ext : NCExt) (db : DB) (inn : String)
    (sv : SourceVersion) (etag : String) :
    Except NCErr SourceVersion × DB × List NCEvent :=
  match ext.getImageMetadata inn etag with
  | .error .notModified => (.ok sv, db, [NCEvent.regGetImageMetadata inn etag])
  | .error e => (.error e, db, [NCEvent.regGetImageMetadata inn etag])
  | .ok md =>
    match SourceVersionFromLabels md.labels with
    | .error e => (.error e, db, [NCEvent.regGetImageMetadata inn etag])
    | .ok newSV =>
      match dbInsert ext db newSV md.canonicalName md.etag with
      | (.error e, evs) => (.error e, db, NCEvent.regGetImageMetadata inn etag :: evs)
      | (.ok db2, evs) =>
        match dbAddNames db2 md.canonicalName md.allNames with
        | (.error e, evs2) =>
          (.error e, db2, NCEvent.regGetImageMetadata inn etag :: (evs ++ evs2))
        | (.ok db3, evs2) =>
          (.ok newSV, db3, NCEvent.regGetImageMetadata inn etag :: (evs ++ evs2))

/-- GetSourceVersion: look the image name up locally; a NoSourceVersionFound
outcome proceeds with the zero SourceVersion and an empty etag, any other
lookup error (or a failing parse of the cached version) returns immediately
with no registry interaction; otherwise the cached row supplies the
SourceVersion and etag for the conditional fetch. -/
def GetSourceVersion (ext : NCExt) (db : DB) (inn : String) :
    Except NCErr SourceVersion × DB × List NCEvent :=
  match dbQueryOnName db inn with
  | .error (.noSourceVersionFound _) => getSourceVersionAfterLookup ext db inn svZero ""
  | .error e => (.error e, db, [])
  | .ok (etag, repo, offset, version, _) =>
    match makeSourceVersion repo offset version with
    | .error e => (.error e, db, [])
    | .ok sv => getSourceVersionAfterLookup ext db inn sv etag

/-- Harvest inner loop over the tags of one alias repository: tags whose
WithTag fails are skipped, and every resulting name is pulled into the cache
by GetSourceVersion with its outcome discarded. -/
def harvestTags (ext : NCExt) (ref : DockerRef) : DB → List String → DB × List NCEvent
  | db, [] => (db, [])
  | db, t :: ts =>
    match ext.withTag ref t with
    | none => harvestTags ext ref db ts
    | some innStr =>
      let r := GetSourceVersion ext db innStr
      let rest := harvestTags ext ref r.2.1 ts
      (rest.1, r.2.2 ++ rest.2)

/-- Harvest outer loop over the recorded alias repositories: a repository
name that fails to parse aborts the harvest with an error; an AllTags failure
skips that repository. -/
def harvestRepos (ext : NCExt) : DB → List String → Except NCErr Unit × DB × List NCEvent
  | db, [] => (.ok (), db, [])
  | db, r :: rs =>
    match ext.parseNamed r with
    | none => (.error (.otherErr ("bad repo name " ++ r)), db, [])
    | some ref =>
      match ext.allTags r with
      | .error _ =>
        let rest := harvestRepos ext db rs
        (rest.1, rest.2.1, .regAllTags r :: rest.2.2)
      | .ok ts =>
        let p := harvestTags ext ref db ts
        let rest := harvestRepos ext p.1 rs
        (rest.1, rest.2.1, .regAllTags r :: (p.2 ++ rest.2.2))

/-- harvest: enumerate the recorded alias repositories of the location and
pull all their tagged names into the cache; a failing repository enumeration
aborts with that error. -/
def harvest (ext : NCExt) (db : DB) (sl : SourceLocation) :
    Except NCErr Unit × DB × List NCEvent :=
  match dbQueryOnSL db sl with
  | .error e => (.error e, db, [])
  | .ok repos => harvestRepos ext db repos

/-- Branch of GetImageName on the outcome of the first lookup: a hit returns
the canonical name; a NoImageNameFound outcome harvests and retries the
lookup exactly once, a failing harvest returning its error without retry; any
other lookup error is returned unchanged with no harvest. -/
def getImageNameAfterLookup (ext : NCExt) (db : DB) (sv : SourceVersion) :
    Except NCErr (String × List String) → Except NCErr String × DB × List NCEvent
  | .ok (cn, _) => (.ok cn, db, [])
  | .error (.noImageNameFound x) =>
    match harvest ext db sv.canonicalName with
    | (.error e, db2, evs) => (.error e, db2, evs)
    | (.ok _, db2, evs) =>
      match dbQueryOnSV db2 sv with
      | .error e2 => (.error e2, db2, evs ++ [.lookupSV sv])
      | .ok (cn, _) => (.ok cn, db2, evs ++ [.lookupSV sv])
  | .error e => (.error e, db, [])

/-- GetImageName: look the SourceVersion up, then dispatch on the outcome,
with the initial lookup recorded as the first event. -/
def GetImageName (ext : NCExt) (db : DB) (sv : SourceVersion) :
    Except NCErr String × DB × List NCEvent :=
  ((getImageNameAfterLookup ext db sv (dbQueryOnSV db sv)).1,
   (getImageNameAfterLookup ext db sv (dbQueryOnSV db sv)).2.1,
   .lookupSV sv :: (getImageNameAfterLookup ext db sv (dbQueryOnSV db sv)).2.2)

/-- True exactly on metadata-table insert statements. -/
def isMetaInsert : NCEvent → Bool
  | .insMetadata _ _ _ _ => true
  | _ => false

/-- True exactly on registry GetImageMetadata calls. -/
def isRegFetch : NCEvent → Bool
  | .regGetImageMetadata _ _ => true
  | _ => false

/-- True exactly on registry calls of either kind. -/
def isRegCall : NCEvent → Bool
  | .regGetImageMetadata _ _ => true
  | .regAllTags _ => true
  | _ => false

/-- True exactly on AllTags registry calls. -/
def isAllTags : NCEvent → Bool
  | .regAllTags _ => true
  | _ => false

/-- True exactly on the lookup markers of GetImageName. -/
def isLookupSV : NCEvent → Bool
  | .lookupSV _ => true
  | _ => false

/-- True exactly on Deploy calls. -/
def isDeployCall : SchedCall → Bool
  | .deployCall _ _ _ _ _ _ _ => true
  | _ => false

/-- True exactly on ImageName calls. -/
def isImageNameCall : SchedCall → Bool
  | .imageNameCall _ => true
  | _ => false

/-- True exactly on PostRequest calls. -/
def isPostRequestCall : SchedCall → Bool
  | .postRequestCall _ _ _ => true
  | _ => false

/-- Whether image-name resolution succeeds for a deployment under a given
client. -/
def imageNameOk (c : RectClient) (d : Deployment) : Bool :=
  match c.imageName d with
  | .ok _ => true
  | .error _ => false

/-- The CreateErrors the created-stream loop owes to image-name failures: one
per failing deployment, in stream order, carrying that deployment. -/
def createFailures (c : RectClient) (ds : List Deployment) : List RectificationError :=
  ds.filterMap (fun d =>
    match c.imageName d with
    | .error e => some (.createError d e)
    | .ok _ => none)

/-- Cluster and request id of a Deploy call, used to attribute deploys to
deployments. -/
def deployKey : SchedCall → Option (String × String)
  | .deployCall cluster _ reqID _ _ _ _ => some (cluster, reqID)
  | _ => none

/-- Concrete SourceVersion without offset used in witness scenarios. -/
def svW : SourceVersion := ⟨"github.com/x/y", ⟨1, 2, 3, "", ""⟩, ""⟩

/-- Concrete SourceVersion with a nonempty offset used in witness
scenarios. -/
def svWoff : SourceVersion := ⟨"github.com/x/y", ⟨1, 2, 3, "", ""⟩, "sub"⟩

/-- Concrete deployment with an explicit request id. -/
def dW1 : Deployment := ⟨"cl", "rid", 1, [], [], [], svW⟩

/-- Concrete deployment with an empty request id. -/
def dW2 : Deployment := ⟨"cl", "", 1, [], [], [], svWoff⟩

/-- Concrete deployment on which the witness client fails image-name
resolution. -/
def dWbad : Deployment := ⟨"bad", "", 2, [], [], [], svW⟩

/-- Concrete modify pair differing in instance count and in source
version. -/
def pairW : DeploymentPair :=
  ⟨⟨"cl", "", 1, [], [], [], svW⟩, ⟨"cl", "", 2, [], [], [], svWoff⟩⟩

/-- Witness scheduler client: Scale fails, image-name resolution fails
exactly on cluster bad, everything else succeeds. -/
def cW : RectClient :=
  ⟨fun d => if d.cluster = "bad" then .error "no image" else .ok "img",
   fun _ _ _ => none,
   fun _ _ _ _ _ _ _ => none,
   fun _ _ _ _ => some "boom",
   fun _ _ _ => none⟩

/-- Witness registry metadata, labelled with the fields of svWoff and
revision abc. -/
def mdW : ImageMetadata :=
  ⟨[(DockerRepoLabel, "github.com/x/y"), (DockerVersionLabel, "1.2.3"),
    (DockerRevisionLabel, "abc"), (DockerPathLabel, "sub")],
   "etag2", "repo/img:1.0", ["repo/alias:1.0"]⟩

/-- Witness external collaborators whose registry always fails (never
consulted in the scenarios using it). -/
def extW0 : NCExt :=
  ⟨fun _ _ => .error (.otherErr "unused"),
   fun _ => .error (.otherErr "unused"),
   fun s => some ⟨s⟩,
   fun r t => some (r.name ++ ":" ++ t)⟩

/-- Witness external collaborators whose registry serves mdW. -/
def extW1 : NCExt :=
  ⟨fun _ _ => .ok mdW,
   fun _ => .error (.otherErr "unused"),
   fun s => some ⟨s⟩,
   fun r t => some (r.name ++ ":" ++ t)⟩

/-- Witness external collaborators whose registry reports not modified. -/
def extW2 : NCExt :=
  ⟨fun _ _ => .error .notModified,
   fun _ => .error (.otherErr "unused"),
   fun s => some ⟨s⟩,
   fun r t => some (r.name ++ ":" ++ t)⟩

/-- Concrete SourceVersion sharing the location of svWoff but with another
version, used to seed the store for the harvest witness. -/
def svW2 : SourceVersion := ⟨"github.com/x/y", ⟨0, 9, 0, "", ""⟩, "sub"⟩

/-- Witness store holding one entry for svW2, so the location of svWoff has a
recorded alias repository while svWoff itself has no image name. -/
def dbW : DB :=
  match dbInsert extW0 emptyDB svW2 "repo/img:0.9" "e0" with
  | (.ok d, _) => d
  | (.error _, _) => emptyDB

/-- Witness store produced by inserting the image name of svW into the empty
store. -/
def dbW10 : DB :=
  match dbInsert extW0 emptyDB svW "repo/img:1.0" "e" with
  | (.ok d, _) => d
  | (.error _, _) => emptyDB

theorem rinv_init (c0 c1 c2 : List RectificationError) : RInv (initState c0 c1 c2) := by
  refine ⟨rfl, ?_, ?_⟩
  · intro i h
    cases i <;> simp [initState, RState.getW] at h
  · intro h
    simp [initState] at h

theorem getW_setW (s : RState) (i j : WIdx) (w : WState) :
    (s.setW i w).getW j = if j = i then w else s.getW j := by
  cases i <;> cases j <;> simp [RState.setW, RState.getW]

theorem getW_finishW (s : RState) (i j : WIdx) :
    (s.finishW i).getW j = if j = i then ⟨[], true⟩ else s.getW j := by
  cases i <;> cases j <;> simp [RState.finishW, RState.getW]

theorem wg_setW (s : RState) (i : WIdx) (w : WState) : (s.setW i w).wg = s.wg := by
  cases i <;> rfl

theorem closed_setW (s : RState) (i : WIdx) (w : WState) :
    (s.setW i w).closed = s.closed := by
  cases i <;> rfl

theorem wg_finishW (s : RState) (i : WIdx) : (s.finishW i).wg = s.wg - 1 := by
  cases i <;> rfl

theorem closed_finishW (s : RState) (i : WIdx) : (s.finishW i).closed = s.closed := by
  cases i <;> rfl

theorem unfinishedCount_setW (s : RState) (i : WIdx) (rest : List RectificationError)
    (hf : (s.getW i).finished = false) :
    unfinishedCount (s.setW i ⟨rest, false⟩) = unfinishedCount s := by
  cases i <;> simp only [RState.getW] at hf <;>
    simp [RState.setW, unfinishedCount, hf]

theorem unfinishedCount_finishW (s : RState) (i : WIdx)
    (hf : (s.getW i).finished = false) :
    unfinishedCount (s.finishW i) = unfinishedCount s - 1 := by
  cases i <;> simp only [RState.getW] at hf <;>
    simp [RState.finishW, unfinishedCount, hf] <;> omega

theorem unfinishedCount_pos (s : RState) (i : WIdx)
    (hf : (s.getW i).finished = false) : 0 < unfinishedCount s := by
  cases i <;> simp only [RState.getW] at hf <;>
    simp [unfinishedCount, hf] <;> omega

theorem unfinishedCount_zero (s : RState) (h : unfinishedCount s = 0)
    (i : WIdx) : (s.getW i).finished = true := by
  unfold unfinishedCount at h
  cases i <;> simp only [RState.getW] <;>
    by_contra hfalse <;> simp only [Bool.not_eq_true] at hfalse <;>
    simp [hfalse] at h

theorem rstep_inv {s s2 : RState} {e : REvent} (h : RStep s e s2) (hinv : RInv s) :
    RInv s2 := by
  obtain ⟨hwg, hfin, hcl⟩ := hinv
  cases h with
  | send i err rest hrem hf =>
    refine ⟨?_, ?_, ?_⟩
    · rw [wg_setW, unfinishedCount_setW s i rest hf]
      exact hwg
    · intro j hj
      rw [getW_setW] at hj ⊢
      by_cases hji : j = i
      · simp [hji] at hj
      · simp [hji] at hj ⊢
        exact hfin j hj
    · rw [closed_setW]
      intro hc
      exfalso
      have h2 := hcl hc i
      rw [h2] at hf
      simp at hf
  | finish i hrem hf =>
    refine ⟨?_, ?_, ?_⟩
    · rw [wg_finishW, unfinishedCount_finishW s i hf, hwg]
    · intro j hj
      rw [getW_finishW] at hj ⊢
      by_cases hji : j = i
      · simp [hji]
      · simp [hji] at hj ⊢
        exact hfin j hj
    · rw [closed_finishW]
      intro hc
      exfalso
      have h2 := hcl hc i
      rw [h2] at hf
      simp at hf
  | closeStep hwg0 hc =>
    refine ⟨hwg, fun j hj => hfin j hj, ?_⟩
    intro _ i
    have hcnt : unfinishedCount s = 0 := by rw [← hwg, hwg0]
    exact unfinishedCount_zero s hcnt i

theorem no_step_when_closed {s s2 : RState} {e : REvent} (hinv : RInv s)
    (hc : s.closed = true) (h : RStep s e s2) : False := by
  obtain ⟨_, _, hcl⟩ := hinv
  cases h with
  | send i err rest hrem hf =>
    have h2 := hcl hc i
    rw [h2] at hf
    simp at hf
  | finish i hrem hf =>
    have h2 := hcl hc i
    rw [h2] at hf
    simp at hf
  | closeStep hwg hcl2 =>
    rw [hc] at hcl2
    simp at hcl2

theorem rtrace_closed_nil {s s2 : RState} {tr : List REvent} (h : RTrace s tr s2)
    (hinv : RInv s) (hc : s.closed = true) : tr = [] := by
  cases h with
  | nil => rfl
  | cons hstep htr => exact absurd hstep (fun hs => no_step_when_closed hinv hc hs)

theorem rtrace_inv {s s2 : RState} {tr : List REvent} (h : RTrace s tr s2)
    (hinv : RInv s) : RInv s2 := by
  induction h with
  | nil => exact hinv
  | cons hstep _ ih => exact ih (rstep_inv hstep hinv)

theorem rtrace_rem {s s2 : RState} {tr : List REvent} (h : RTrace s tr s2) :
    ∀ i : WIdx, (s.getW i).rem = sendsOf i tr ++ (s2.getW i).rem := by
  induction h with
  | nil => intro i; simp [sendsOf]
  | cons hstep htr ih =>
    intro i
    cases hstep with
    | send j err rest hrem hf =>
      have hrec := ih i
      rw [getW_setW] at hrec
      by_cases hij : i = j
      · subst hij
        simp at hrec
        simp [sendsOf, hrem, hrec]
      · simp [hij] at hrec
        simp only [sendsOf] at hrec ⊢
        simp [Ne.symm hij, hrec]
    | finish j hrem hf =>
      have hrec := ih i
      rw [getW_finishW] at hrec
      by_cases hij : i = j
      · subst hij
        simp at hrec
        simp only [sendsOf] at hrec ⊢
        simp [hrem, hrec]
      · simp [hij] at hrec
        simp only [sendsOf] at hrec ⊢
        simpa using hrec
    | closeStep hwg hcl =>
      have hrec := ih i
      simp only [sendsOf] at hrec ⊢
      simpa [RState.closeC, RState.getW] using hrec

theorem rtrace_close_count {s s2 : RState} {tr : List REvent} (h : RTrace s tr s2)
    (hinv : RInv s) (hc : s.closed = false) :
    tr.count REvent.closeEvt = if s2.closed then 1 else 0 := by
  induction h with
  | nil => simp [hc]
  | cons hstep htr ih =>
    have hinv2 := rstep_inv hstep hinv
    cases hstep with
    | send j err rest hrem hf =>
      rw [List.count_cons, ih hinv2 (by rw [closed_setW]; exact hc)]
      simp
    | finish j hrem hf =>
      rw [List.count_cons, ih hinv2 (by rw [closed_finishW]; exact hc)]
      simp
    | closeStep hwg hcl =>
      have hnil := rtrace_closed_nil htr hinv2 rfl
      subst hnil
      cases htr
      rw [List.count_cons]
      simp [RState.closeC]

theorem rtrace_append_split {s s2 : RState} {t1 t2 : List REvent}
    (h : RTrace s (t1 ++ t2) s2) : ∃ mid, RTrace s t1 mid ∧ RTrace mid t2 s2 := by
  induction t1 generalizing s with
  | nil => exact ⟨s, RTrace.nil s, h⟩
  | cons e es ih =>
    cases h with
    | cons hstep htr =>
      obtain ⟨mid, h1, h2⟩ := ih htr
      exact ⟨mid, RTrace.cons hstep h1, h2⟩

theorem rstate_progress {s : RState} (hinv : RInv s) (hc : s.closed = false) :
    ∃ e s2, RStep s e s2 := by
  obtain ⟨hwg, hfin, _⟩ := hinv
  by_cases h0 : s.w0.finished = false
  · cases hr : s.w0.rem with
    | nil => exact ⟨_, _, RStep.finish s .createdW hr h0⟩
    | cons x xs => exact ⟨_, _, RStep.send s .createdW x xs hr h0⟩
  by_cases h1 : s.w1.finished = false
  · cases hr : s.w1.rem with
    | nil => exact ⟨_, _, RStep.finish s .deletedW hr h1⟩
    | cons x xs => exact ⟨_, _, RStep.send s .deletedW x xs hr h1⟩
  by_cases h2 : s.w2.finished = false
  · cases hr : s.w2.rem with
    | nil => exact ⟨_, _, RStep.finish s .modifiedW hr h2⟩
    | cons x xs => exact ⟨_, _, RStep.send s .modifiedW x xs hr h2⟩
  refine ⟨_, _, RStep.closeStep s ?_ hc⟩
  simp only [Bool.not_eq_false] at h0 h1 h2
  rw [hwg]
  simp [unfinishedCount, h0, h1, h2]

theorem string_mk_data (s : String) : String.mk s.data = s := by
  cases s
  rfl

theorem splitOnCharAux_no_delim (d : Char) (xs : List Char) :
    ∀ acc, d ∉ xs → splitOnCharAux d xs acc = [acc.reverse ++ xs] := by
  induction xs with
  | nil => intro acc _; simp [splitOnCharAux]
  | cons c cs ih =>
    intro acc h
    have hcd : ¬ c = d := fun hc => h (hc ▸ List.mem_cons_self c cs)
    rw [splitOnCharAux, if_neg hcd, ih _ (fun hm => h (List.mem_cons_of_mem c hm))]
    simp

theorem splitOnCharAux_delim (d : Char) (xs : List Char) :
    ∀ acc (ys : List Char), d ∉ xs →
      splitOnCharAux d (xs ++ d :: ys) acc = (acc.reverse ++ xs) :: splitOnChar d ys := by
  induction xs with
  | nil =>
    intro acc ys _
    simp [splitOnCharAux, splitOnChar]
  | cons c cs ih =>
    intro acc ys h
    have hcd : ¬ c = d := fun hc => h (hc ▸ List.mem_cons_self c cs)
    rw [List.cons_append, splitOnCharAux, if_neg hcd,
      ih _ _ (fun hm => h (List.mem_cons_of_mem c hm))]
    simp

theorem splitOnChar_no_delim (d : Char) (xs : List Char) (h : d ∉ xs) :
    splitOnChar d xs = [xs] := by
  rw [splitOnChar, splitOnCharAux_no_delim d xs [] h]
  rfl

theorem splitOnChar_delim (d : Char) (xs ys : List Char) (h : d ∉ xs) :
    splitOnChar d (xs ++ d :: ys) = xs :: splitOnChar d ys := by
  rw [splitOnChar, splitOnCharAux_delim d xs [] ys h]
  rfl

theorem splitOnCharAux_ne_nil (d : Char) (xs : List Char) :
    ∀ acc, splitOnCharAux d xs acc ≠ [] := by
  induction xs with
  | nil => intro acc; simp [splitOnCharAux]
  | cons c cs ih =>
    intro acc
    rw [splitOnCharAux]
    by_cases hcd : c = d
    · simp [hcd]
    · rw [if_neg hcd]
      exact ih _

theorem parseChunks_ne_nil (nfc : String → String) (s : String) (chunks : List String)
    (h : parseChunks nfc s = some chunks) : chunks ≠ [] := by
  unfold parseChunks at h
  cases hd : (nfc s).data with
  | nil => rw [hd] at h; cases h
  | cons c rest =>
    rw [hd] at h
    have h2 : (if isAsciiLetter c = true then
          some ((splitOnChar ',' (c :: rest)).map String.mk)
        else some ((splitOnChar c rest).map String.mk)) = some chunks := h
    by_cases hl : isAsciiLetter c = true
    · rw [if_pos hl] at h2
      intro hnil
      rw [hnil] at h2
      have h3 := splitOnCharAux_ne_nil ',' (c :: rest) []
      simp only [Option.some.injEq] at h2
      exact h3 (List.map_eq_nil_iff.mp h2)
    · rw [if_neg hl] at h2
      intro hnil
      rw [hnil] at h2
      have h3 := splitOnCharAux_ne_nil c rest []
      simp only [Option.some.injEq] at h2
      exact h3 (List.map_eq_nil_iff.mp h2)

theorem parseChunks_letter (nfc : String → String) (s : String) (c : Char)
    (rest : List Char) (hdata : s.data = c :: rest) (hl : isAsciiLetter c = true)
    (hnfc : nfc s = s) :
    parseChunks nfc s = some ((splitOnChar ',' s.data).map String.mk) := by
  unfold parseChunks
  rw [hnfc, hdata]
  show (if isAsciiLetter c = true then
      some ((splitOnChar ',' (c :: rest)).map String.mk)
    else some ((splitOnChar c rest).map String.mk)) = _
  rw [if_pos hl, ← hdata]

theorem string_ne_empty_of_data_cons {s : String} {c : Char} {rest : List Char}
    (hdata : s.data = c :: rest) : ¬ s = "" := by
  intro h
  rw [h] at hdata
  simp at hdata

/-- C8: ParseCanonicalName round-trips on SourceLocation.String only for an
empty offset (with an NFC-fixed, letter-initial, comma-free repo): with a
nonempty offset the rendered repo:offset string parses as a single chunk and
yields the location with the colon-joined string as repo and an empty offset,
so the round-trip fails; parsing any input that splits into three chunks
fails with an IncludesVersion error.  The nfc parameter is the abstract NFC
normalization. -/
theorem c8_parse_canonical_name (nfc : String → String) :
    (∀ (repo : String) (c : Char) (rest : List Char),
      repo.data = c :: rest →
      isAsciiLetter c = true →
      ',' ∉ repo.data →
      nfc (SourceLocation.string ⟨repo, ""⟩) = SourceLocation.string ⟨repo, ""⟩ →
      ParseCanonicalName nfc (SourceLocation.string ⟨repo, ""⟩) =
        some (.ok ⟨repo, ""⟩)) ∧
    (∀ (repo off : String) (c : Char) (rest : List Char),
      off ≠ "" →
      repo.data = c :: rest →
      isAsciiLetter c = true →
      ',' ∉ repo.data →
      ',' ∉ off.data →
      nfc (SourceLocation.string ⟨repo, off⟩) = SourceLocation.string ⟨repo, off⟩ →
      ParseCanonicalName nfc (SourceLocation.string ⟨repo, off⟩) =
        some (.ok ⟨repo ++ ":" ++ off, ""⟩)) ∧
    (∀ (s : String) (chunks : List String),
      parseChunks nfc s = some chunks →
      chunks.length = 3 →
      ParseCanonicalName nfc s = some (.error (.includesVersion s))) := by
  refine ⟨?_, ?_, ?_⟩
  · intro repo c rest hdata hl hcomma hnfc
    have hstr : SourceLocation.string ⟨repo, ""⟩ = repo := by
      simp [SourceLocation.string]
    rw [hstr] at hnfc ⊢
    unfold ParseCanonicalName
    rw [parseChunks_letter nfc repo c rest hdata hl hnfc,
      splitOnChar_no_delim ',' repo.data hcomma]
    simp only [List.map]
    rw [string_mk_data]
    have hne := string_ne_empty_of_data_cons hdata
    simp [canonicalNameFromChunks, hne]
  · intro repo off c rest hoff hdata hl hcomma hcomma2 hnfc
    have hstr : SourceLocation.string ⟨repo, off⟩ = repo ++ ":" ++ off := by
      simp [SourceLocation.string, hoff]
    have hfull : (repo ++ ":" ++ off).data = repo.data ++ ':' :: off.data := by
      rw [String.data_append, String.data_append]
      simp
    have hdata2 : (repo ++ ":" ++ off).data = c :: (rest ++ ':' :: off.data) := by
      rw [hfull, hdata]
      rfl
    have hnocomma : ',' ∉ (repo ++ ":" ++ off).data := by
      rw [hfull]
      intro hm
      rcases List.mem_append.mp hm with h1 | h2
      · exact hcomma h1
      · rcases List.mem_cons.mp h2 with h3 | h4
        · exact absurd h3 (by decide)
        · exact hcomma2 h4
    rw [hstr] at hnfc ⊢
    unfold ParseCanonicalName
    rw [parseChunks_letter nfc (repo ++ ":" ++ off) c (rest ++ ':' :: off.data) hdata2 hl hnfc,
      splitOnChar_no_delim ',' (repo ++ ":" ++ off).data hnocomma]
    simp only [List.map]
    rw [string_mk_data]
    have hne := string_ne_empty_of_data_cons hdata2
    simp [canonicalNameFromChunks, hne]
  · intro s chunks hchunks hlen
    unfold ParseCanonicalName
    rw [hchunks]
    simp [canonicalNameFromChunks, hlen]

/-- Counterexample for C8 as stated: for the location with repo
github.com/x/y and offset sub, the rendered string parses back to a different
location (the colon-joined string as repo, empty offset), so
ParseCanonicalName of String() does not return the original location. -/
theorem c8_counterexample :
    SourceLocation.string ⟨"github.com/x/y", "sub"⟩ = "github.com/x/y:sub" ∧
    ParseCanonicalName id (SourceLocation.string ⟨"github.com/x/y", "sub"⟩) =
      some (.ok ⟨"github.com/x/y:sub", ""⟩) ∧
    ParseCanonicalName id (SourceLocation.string ⟨"github.com/x/y", "sub"⟩) ≠
      some (.ok ⟨"github.com/x/y", "sub"⟩) := by
  refine ⟨rfl, rfl, ?_⟩
  intro h
  have h2 : (⟨"github.com/x/y:sub", ""⟩ : SourceLocation) = ⟨"github.com/x/y", "sub"⟩ := by
    have h3 : ParseCanonicalName id (SourceLocation.string ⟨"github.com/x/y", "sub"⟩) =
        some (.ok ⟨"github.com/x/y:sub", ""⟩) := rfl
    rw [h3] at h
    simpa using h
  simp at h2

/-- Witness for C8 at concrete inputs: an empty-offset location round-trips,
a nonempty-offset location parses to the colon-joined repo, and a three-chunk
input is rejected with IncludesVersion. -/
theorem c8_parse_canonical_name_witness :
    ParseCanonicalName id (SourceLocation.string ⟨"github.com/x/y", ""⟩) =
      some (.ok ⟨"github.com/x/y", ""⟩) ∧
    ParseCanonicalName id (SourceLocation.string ⟨"github.com/x/y", "sub"⟩) =
      some (.ok ⟨"github.com/x/y" ++ ":" ++ "sub", ""⟩) ∧
    ParseCanonicalName id "a,b,c" = some (.error (.includesVersion "a,b,c")) := by
  refine ⟨?_, ?_, ?_⟩
  · exact (c8_parse_canonical_name id).1 "github.com/x/y" 'g'
      ("ithub.com/x/y" : String).data (by decide) (by decide) (by decide) rfl
  · exact (c8_parse_canonical_name id).2.1 "github.com/x/y" "sub" 'g'
      ("ithub.com/x/y" : String).data (by decide) (by decide) (by decide)
      (by decide) (by decide) rfl
  · exact (c8_parse_canonical_name id).2.2 "a,b,c" ["a", "b", "c"] (by decide) (by decide)

/-- C9 (amended): parseChunks indexes the first byte, so both parsers panic
(modelled as none) on the empty string rather than returning a missing
repository error; on an input that splits into exactly one chunk,
ParseSourceVersion panics on the unconditional access of the second chunk
when that chunk is nonempty, and returns a MissingRepo error, not a panic and
not a missing-version error, when the chunk is empty; with a nonempty input
ParseCanonicalName never panics, and with at least two chunks
ParseSourceVersion never panics. -/
theorem c9_parse_bounds (nfc : String → String) :
    (nfc "" = "" →
      ParseSourceVersion nfc "" = none ∧ ParseCanonicalName nfc "" = none) ∧
    (∀ (s : String) (c0 : String), parseChunks nfc s = some [c0] →
      (c0 ≠ "" → ParseSourceVersion nfc s = none) ∧
      (c0 = "" → ParseSourceVersion nfc s = some (.error (.missingRepo s)))) ∧
    (∀ (s : String) (chunks : List String), parseChunks nfc s = some chunks →
      2 ≤ chunks.length → ParseSourceVersion nfc s ≠ none) ∧
    (∀ (s : String) (chunks : List String), parseChunks nfc s = some chunks →
      ParseCanonicalName nfc s ≠ none) := by
  refine ⟨?_, ?_, ?_, ?_⟩
  · intro h0
    have hpc : parseChunks nfc "" = none := by
      unfold parseChunks
      rw [h0]
    constructor
    · unfold ParseSourceVersion
      rw [hpc]
    · unfold ParseCanonicalName
      rw [hpc]
  · intro s c0 hchunks
    constructor
    · intro hne
      unfold ParseSourceVersion
      rw [hchunks]
      simp [sourceVersionFromChunks, hne]
    · intro he
      subst he
      unfold ParseSourceVersion
      rw [hchunks]
      simp [sourceVersionFromChunks]
  · intro s chunks hchunks hlen
    cases chunks with
    | nil => simp at hlen
    | cons c0 tl =>
      cases tl with
      | nil => simp at hlen
      | cons c1 tl2 =>
        unfold ParseSourceVersion
        rw [hchunks]
        by_cases h0 : c0 = ""
        · simp [sourceVersionFromChunks, h0]
        · cases hsp : semvParse c1 <;> simp [sourceVersionFromChunks, h0, hsp]
  · intro s chunks hchunks
    cases chunks with
    | nil => exact absurd rfl (parseChunks_ne_nil nfc s [] hchunks)
    | cons c0 tl =>
      unfold ParseCanonicalName
      rw [hchunks]
      show canonicalNameFromChunks s (c0 :: tl) ≠ none
      unfold canonicalNameFromChunks
      intro h
      split at h
      · cases h
      · by_cases h0 : c0 = "" <;> simp [h0] at h

/-- Counterexample for C9 as stated: the nonempty input consisting of a
single plus sign splits into exactly one (empty) chunk, yet ParseSourceVersion
returns a MissingRepo error instead of hitting the out-of-bounds chunk
access. -/
theorem c9_counterexample :
    ("+" : String) ≠ "" ∧
    parseChunks id "+" = some [""] ∧
    ParseSourceVersion id "+" = some (.error (.missingRepo "+")) ∧
    ParseSourceVersion id "+" ≠ none := by
  refine ⟨by decide, by decide, rfl, ?_⟩
  intro h
  rw [show ParseSourceVersion id "+" = some (.error (.missingRepo "+")) from rfl] at h
  cases h

/-- Witness for C9 at concrete inputs: the empty string panics in both
parsers, a space-separated rendering splits into one nonempty chunk and
panics, the plus-sign input returns MissingRepo, and two-chunk and one-chunk
inputs do not panic in the respective parsers. -/
theorem c9_parse_bounds_witness :
    ParseSourceVersion id "" = none ∧
    ParseCanonicalName id "" = none ∧
    ParseSourceVersion id "github.com/x/y 1.2.3" = none ∧
    ParseSourceVersion id "+" = some (.error (.missingRepo "+")) ∧
    ParseSourceVersion id "a,1.2.3" ≠ none ∧
    ParseCanonicalName id "abc" ≠ none := by
  refine ⟨((c9_parse_bounds id).1 rfl).1, ((c9_parse_bounds id).1 rfl).2, ?_, ?_, ?_, ?_⟩
  · exact ((c9_parse_bounds id).2.1 "github.com/x/y 1.2.3" "github.com/x/y 1.2.3"
      (by decide)).1 (by decide)
  · exact ((c9_parse_bounds id).2.1 "+" "" (by decide)).2 rfl
  · exact (c9_parse_bounds id).2.2.1 "a,1.2.3" ["a", "1.2.3"] (by decide) (by decide)
  · exact (c9_parse_bounds id).2.2.2 "abc" ["abc"] (by decide)

/-- C1 (amended): ParseSourceVersion does not round-trip on
SourceVersion.String: the rendering separates fields with a space (and a
colon before the offset) while parsing splits on the comma delimiter, so for
every SourceVersion whose rendered string is NFC-fixed, starts with an ASCII
letter and contains no comma, parsing yields a single chunk and hits the
out-of-bounds access of the second chunk (a panic, modelled as none); the
round-trip holds instead for the comma-joined canonical chunk form of
repo, version and, when nonempty, offset. -/
theorem c1_parse_source_version (nfc : String → String) :
    (∀ (sv : SourceVersion) (c : Char) (rest : List Char),
      sv.repoURL.data = c :: rest →
      isAsciiLetter c = true →
      ',' ∉ sv.string.data →
      nfc sv.string = sv.string →
      ParseSourceVersion nfc sv.string = none) ∧
    (∀ (sv : SourceVersion) (c : Char) (rest : List Char),
      sv.repoURL.data = c :: rest →
      isAsciiLetter c = true →
      ',' ∉ sv.repoURL.data →
      ',' ∉ sv.version.vString.data →
      ',' ∉ sv.repoOffset.data →
      semvParse sv.version.vString = .ok sv.version →
      nfc (commaCanonicalForm sv) = commaCanonicalForm sv →
      ParseSourceVersion nfc (commaCanonicalForm sv) = some (.ok sv)) := by
  constructor
  · intro sv c rest hdata hl hcomma hnfc
    have hsd : ∃ X, sv.string.data = c :: (rest ++ X) := by
      unfold SourceVersion.string
      by_cases hoff : sv.repoOffset = ""
      · refine ⟨' ' :: sv.version.vString.data, ?_⟩
        rw [if_pos hoff, String.data_append, String.data_append, hdata]
        simp
      · refine ⟨':' :: (sv.repoOffset.data ++ ' ' :: sv.version.vString.data), ?_⟩
        rw [if_neg hoff, String.data_append, String.data_append, String.data_append,
          String.data_append, hdata]
        simp
    obtain ⟨X, hsd⟩ := hsd
    unfold ParseSourceVersion
    rw [parseChunks_letter nfc sv.string c (rest ++ X) hsd hl hnfc,
      splitOnChar_no_delim ',' sv.string.data hcomma]
    simp only [List.map]
    rw [string_mk_data]
    have hne := string_ne_empty_of_data_cons hsd
    simp [sourceVersionFromChunks, hne]
  · intro sv c rest hdata hl hc1 hc2 hc3 hsem hnfc
    obtain ⟨repo, ver, off⟩ := sv
    simp only at hdata hl hc1 hc2 hc3 hsem ⊢
    have hne : ¬ repo = "" := string_ne_empty_of_data_cons hdata
    by_cases hoff : off = ""
    · have hform : (commaCanonicalForm ⟨repo, ver, off⟩).data =
          repo.data ++ ',' :: ver.vString.data := by
        unfold commaCanonicalForm
        simp only [hoff, if_true]
        rw [String.data_append, String.data_append, String.data_append]
        simp
      have hfd : (commaCanonicalForm ⟨repo, ver, off⟩).data =
          c :: (rest ++ ',' :: ver.vString.data) := by
        rw [hform, hdata]
        simp
      unfold ParseSourceVersion
      rw [parseChunks_letter nfc _ c _ hfd hl hnfc, hform,
        splitOnChar_delim ',' repo.data ver.vString.data hc1,
        splitOnChar_no_delim ',' ver.vString.data hc2]
      simp only [List.map]
      rw [string_mk_data, string_mk_data]
      simp [sourceVersionFromChunks, hne, hsem, hoff]
    · have hform : (commaCanonicalForm ⟨repo, ver, off⟩).data =
          repo.data ++ ',' :: (ver.vString.data ++ ',' :: off.data) := by
        unfold commaCanonicalForm
        simp only [hoff, if_false]
        rw [String.data_append, String.data_append, String.data_append,
          String.data_append]
        simp
      have hfd : (commaCanonicalForm ⟨repo, ver, off⟩).data =
          c :: (rest ++ ',' :: (ver.vString.data ++ ',' :: off.data)) := by
        rw [hform, hdata]
        simp
      unfold ParseSourceVersion
      rw [parseChunks_letter nfc _ c _ hfd hl hnfc, hform,
        splitOnChar_delim ',' repo.data (ver.vString.data ++ ',' :: off.data) hc1,
        splitOnChar_delim ',' ver.vString.data off.data hc2,
        splitOnChar_no_delim ',' off.data hc3]
      simp only [List.map]
      rw [string_mk_data, string_mk_data, string_mk_data]
      simp [sourceVersionFromChunks, hne, hsem]

/-- Counterexample for C1 as stated: for the SourceVersion with repo
github.com/x/y, version 1.2.3 and empty offset, String() renders with a space
and ParseSourceVersion of that rendering panics on the out-of-bounds chunk
access (none) instead of returning the SourceVersion. -/
theorem c1_counterexample :
    SourceVersion.string svW = "github.com/x/y 1.2.3" ∧
    ParseSourceVersion id (SourceVersion.string svW) = none ∧
    ParseSourceVersion id (SourceVersion.string svW) ≠ some (.ok svW) := by
  refine ⟨rfl, rfl, ?_⟩
  intro h
  rw [show ParseSourceVersion id (SourceVersion.string svW) = none from rfl] at h
  cases h

/-- Witness for C1 at concrete inputs: the space-separated rendering of a
SourceVersion with offset panics, while the comma-joined canonical forms
round-trip with and without offset. -/
theorem c1_parse_source_version_witness :
    ParseSourceVersion id (SourceVersion.string svWoff) = none ∧
    ParseSourceVersion id (commaCanonicalForm svW) = some (.ok svW) ∧
    ParseSourceVersion id (commaCanonicalForm svWoff) = some (.ok svWoff) := by
  refine ⟨?_, ?_, ?_⟩
  · exact (c1_parse_source_version id).1 svWoff 'g' ("ithub.com/x/y" : String).data
      (by decide) (by decide) (by decide) rfl
  · exact (c1_parse_source_version id).2 svW 'g' ("ithub.com/x/y" : String).data
      (by decide) (by decide) (by decide) (by decide) (by decide) rfl rfl
  · exact (c1_parse_source_version id).2 svWoff 'g' ("ithub.com/x/y" : String).data
      (by decide) (by decide) (by decide) (by decide) (by decide) rfl rfl

/-- C5: a deployment with a nonempty explicit RequestID keeps it unchanged as
its request id; with an empty RequestID the computed request id is the
idified canonical source-location string, a deterministic function of that
string, contains none of dash, slash, colon, and is identical across calls
for any deployment with the same canonical location string. -/
theorem c5_compute_request_id (d : Deployment) :
    (d.requestID ≠ "" → computeRequestID d = d.requestID) ∧
    (d.requestID = "" →
      computeRequestID d = idify d.sourceVersion.canonicalName.string ∧
      (∀ ch ∈ (computeRequestID d).data, !(ch = '-' || ch = '/' || ch = ':')) ∧
      (∀ d2 : Deployment, d2.requestID = "" →
        d2.sourceVersion.canonicalName.string = d.sourceVersion.canonicalName.string →
        computeRequestID d2 = computeRequestID d)) := by
  constructor
  · intro h
    have hlen : d.requestID.length > 0 := by
      cases hrd : d.requestID with
      | mk l =>
        cases l with
        | nil => exact absurd hrd h
        | cons c cs => simp [String.length]
    simp [computeRequestID, hlen]
  · intro h
    have hlen : ¬ d.requestID.length > 0 := by simp [h]
    refine ⟨by simp [computeRequestID, hlen], ?_, ?_⟩
    · intro ch hch
      simp only [computeRequestID, hlen, if_false, idify] at hch
      exact (List.mem_filter.mp hch).2
    · intro d2 h2 hs
      have hlen2 : ¬ d2.requestID.length > 0 := by simp [h2]
      simp [computeRequestID, hlen, hlen2, hs]

/-- Witness for C5 at two concrete deployments: one with an explicit request
id, one deriving it from the canonical location string. -/
theorem c5_compute_request_id_witness :
    computeRequestID dW1 = "rid" ∧
    computeRequestID dW2 = idify dW2.sourceVersion.canonicalName.string := by
  refine ⟨(c5_compute_request_id dW1).1 (by decide), ?_⟩
  exact ((c5_compute_request_id dW2).2 rfl).1

/-- C3: for a modify pair whose instance counts differ and whose Scale call
fails, the modify loop body emits exactly one ChangeError carrying the pair
and makes zero Deploy and zero ImageName calls (its only scheduler call is
the Scale), regardless of whether the pair also differs in source version,
resources or env. -/
theorem c3_scale_failure_short_circuit (c : RectClient) (depID : String)
    (pair : DeploymentPair) (e : GoErr)
    (hreq : pair.prior.numInstances ≠ pair.post.numInstances)
    (hscale : c.scale pair.post.cluster (computeRequestID pair.post)
      pair.post.numInstances "rectified scaling" = some e) :
    (rectifyModifyOne c depID pair).2 = [.changeError pair e] ∧
    (rectifyModifyOne c depID pair).1 =
      [.scaleCall pair.post.cluster (computeRequestID pair.post)
        pair.post.numInstances "rectified scaling"] ∧
    (rectifyModifyOne c depID pair).1.countP (fun x => isDeployCall x) = 0 ∧
    (rectifyModifyOne c depID pair).1.countP (fun x => isImageNameCall x) = 0 := by
  have hcr : changesReq pair = true := by simp [changesReq, hreq]
  unfold rectifyModifyOne
  simp [hcr, hscale, isDeployCall, isImageNameCall]

/-- Witness for C3: a concrete pair differing in both instance count and
source version, under a client whose Scale fails. -/
theorem c3_scale_failure_short_circuit_witness :
    (rectifyModifyOne cW "dep1" pairW).2 = [.changeError pairW "boom"] ∧
    (rectifyModifyOne cW "dep1" pairW).1.countP (fun x => isDeployCall x) = 0 ∧
    (rectifyModifyOne cW "dep1" pairW).1.countP (fun x => isImageNameCall x) = 0 := by
  have h := c3_scale_failure_short_circuit cW "dep1" pairW "boom" (by decide) rfl
  exact ⟨h.1, h.2.2.1, h.2.2.2⟩

/-- C4: over a created stream under a client for which every deployment that
resolves an image name also posts and deploys successfully, the loop emits
exactly one CreateError per image-name failure, in stream order, each
carrying the failing deployment as the intended deployment, and calls
PostRequest and Deploy for exactly the successfully resolving deployments
(each Deploy attributed by cluster and request id); no step is retried and
processing continues past each failure. -/
theorem c4_create_stream (c : RectClient) (gen : Nat → String) (k : Nat)
    (ds : List Deployment)
    (hok : ∀ d ∈ ds, ∀ name, c.imageName d = .ok name →
      c.postRequest d.cluster (computeRequestID d) d.numInstances = none ∧
      ∀ depID, c.deploy d.cluster depID (computeRequestID d) name
        d.resources d.env d.volumes = none) :
    (rectifyCreates c gen k ds).2 = createFailures c ds ∧
    (rectifyCreates c gen k ds).2.length =
      (ds.filter (fun d => !(imageNameOk c d))).length ∧
    (rectifyCreates c gen k ds).2.map (fun e => e.intendedDeployment) =
      (ds.filter (fun d => !(imageNameOk c d))).map some ∧
    (rectifyCreates c gen k ds).1.filter (fun x => isPostRequestCall x) =
      (ds.filter (fun d => imageNameOk c d)).map
        (fun d => .postRequestCall d.cluster (computeRequestID d) d.numInstances) ∧
    ((rectifyCreates c gen k ds).1.filter (fun x => isDeployCall x)).filterMap deployKey =
      (ds.filter (fun d => imageNameOk c d)).map
        (fun d => (d.cluster, computeRequestID d)) := by
  revert hok
  induction ds generalizing k with
  | nil =>
    intro _
    simp [rectifyCreates, createFailures]
  | cons d ds ih =>
    intro hok
    have hok0 := hok d (List.mem_cons_self d ds)
    have hokT : ∀ d2 ∈ ds, ∀ name, c.imageName d2 = .ok name →
        c.postRequest d2.cluster (computeRequestID d2) d2.numInstances = none ∧
        ∀ depID, c.deploy d2.cluster depID (computeRequestID d2) name
          d2.resources d2.env d2.volumes = none :=
      fun d2 hd2 => hok d2 (List.mem_cons_of_mem d hd2)
    obtain ⟨hA, hB, hC, hD, hE⟩ := ih (k + 1) hokT
    cases himg : c.imageName d with
    | error e =>
      have hone : rectifyCreateOne c (gen k) d =
          ([.imageNameCall d], [.createError d e]) := by
        simp [rectifyCreateOne, himg]
      have hnotok : imageNameOk c d = false := by simp [imageNameOk, himg]
      have hred : rectifyCreates c gen k (d :: ds) =
          (SchedCall.imageNameCall d :: (rectifyCreates c gen (k + 1) ds).1,
           RectificationError.createError d e :: (rectifyCreates c gen (k + 1) ds).2) := by
        simp [rectifyCreates, hone]
      rw [hred]
      refine ⟨?_, ?_, ?_, ?_, ?_⟩
      · rw [hA]
        simp [createFailures, List.filterMap_cons, himg]
      · simp only [List.length_cons, List.filter_cons, hnotok, Bool.not_false,
          if_true, hB]
      · simp only [List.map_cons, List.filter_cons, hnotok, Bool.not_false, if_true]
        rw [hC]
        rfl
      · simp only [List.filter_cons, hnotok]
        rw [show isPostRequestCall (SchedCall.imageNameCall d) = false from rfl]
        simpa using hD
      · simp only [List.filter_cons, hnotok]
        rw [show isDeployCall (SchedCall.imageNameCall d) = false from rfl]
        simpa using hE
    | ok name =>
      obtain ⟨hpost, hdep⟩ := hok0 name himg
      have hone : rectifyCreateOne c (gen k) d =
          ([.imageNameCall d,
            .postRequestCall d.cluster (computeRequestID d) d.numInstances,
            .deployCall d.cluster (gen k) (computeRequestID d) name
              d.resources d.env d.volumes], []) := by
        simp [rectifyCreateOne, himg, hpost, hdep (gen k)]
      have hok2 : imageNameOk c d = true := by simp [imageNameOk, himg]
      have hred : rectifyCreates c gen k (d :: ds) =
          (SchedCall.imageNameCall d ::
            SchedCall.postRequestCall d.cluster (computeRequestID d) d.numInstances ::
            SchedCall.deployCall d.cluster (gen k) (computeRequestID d) name
              d.resources d.env d.volumes :: (rectifyCreates c gen (k + 1) ds).1,
           (rectifyCreates c gen (k + 1) ds).2) := by
        simp [rectifyCreates, hone]
      rw [hred]
      refine ⟨?_, ?_, ?_, ?_, ?_⟩
      · rw [hA]
        simp [createFailures, List.filterMap_cons, himg]
      · simp only [List.filter_cons, hok2, Bool.not_true, if_false, hB]
        simp
      · simp only [List.filter_cons, hok2, Bool.not_true, if_false, hC]
        simp
      · simpa [List.filter_cons, hok2, isPostRequestCall] using hD
      · simpa [List.filter_cons, hok2, isDeployCall, deployKey,
          List.filterMap_cons] using hE

/-- Witness for C4: a stream of one resolving and one failing deployment
under the witness client emits exactly the one CreateError of the failing
deployment and posts and deploys exactly once. -/
theorem c4_create_stream_witness :
    (rectifyCreates cW (fun n => toString n) 0 [dW2, dWbad]).2 =
      [.createError dWbad "no image"] ∧
    (rectifyCreates cW (fun n => toString n) 0 [dW2, dWbad]).1.filter
      (fun x => isPostRequestCall x) =
      [.postRequestCall dW2.cluster (computeRequestID dW2) dW2.numInstances] ∧
    ((rectifyCreates cW (fun n => toString n) 0 [dW2, dWbad]).1.filter
      (fun x => isDeployCall x)).filterMap deployKey =
      [(dW2.cluster, computeRequestID dW2)] := by
  have hok : ∀ d ∈ [dW2, dWbad], ∀ name, cW.imageName d = .ok name →
      cW.postRequest d.cluster (computeRequestID d) d.numInstances = none ∧
      ∀ depID, cW.deploy d.cluster depID (computeRequestID d) name
        d.resources d.env d.volumes = none := by
    intro d hd name hname
    rcases List.mem_cons.mp hd with h | hd2
    · subst h
      exact ⟨rfl, fun _ => rfl⟩
    rcases List.mem_cons.mp hd2 with h | hd3
    · subst h
      have hbad : cW.imageName dWbad = .error "no image" := rfl
      rw [hbad] at hname
      cases hname
    · cases hd3
  have h := c4_create_stream cW (fun n => toString n) 0 [dW2, dWbad] hok
  refine ⟨?_, ?_, ?_⟩
  · rw [h.1]
    rfl
  · rw [h.2.2.2.1]
    rfl
  · rw [h.2.2.2.2]
    rfl

/-- C2: in every interleaved execution of Rectify from its initial state, the
number of close events equals one exactly when the final state is closed (so
the channel is closed at most once, and exactly once in any completed run); a
close can only be the very last event and happens only after every worker has
sent its entire output, so a consumer draining the channel by blocking
receive sees every emitted error and then end-of-stream, and no send ever
follows the close; and an execution that can make no further step has closed
the channel. -/
theorem c2_rectify_close_protocol (c0 c1 c2 : List RectificationError)
    (tr : List REvent) (s : RState)
    (htr : RTrace (initState c0 c1 c2) tr s) :
    tr.count REvent.closeEvt = (if s.closed then 1 else 0) ∧
    (∀ t1 t2, tr = t1 ++ REvent.closeEvt :: t2 →
      t2 = [] ∧ sendsOf .createdW t1 = c0 ∧ sendsOf .deletedW t1 = c1 ∧
        sendsOf .modifiedW t1 = c2) ∧
    ((∀ e s2, ¬ RStep s e s2) → s.closed = true) := by
  have hinv0 := rinv_init c0 c1 c2
  refine ⟨rtrace_close_count htr hinv0 rfl, ?_, ?_⟩
  · intro t1 t2 heq
    rw [heq] at htr
    obtain ⟨mid, h1, h2⟩ := rtrace_append_split htr
    have hinvmid := rtrace_inv h1 hinv0
    cases h2 with
    | cons hstep htl =>
      cases hstep with
      | closeStep hwg hcl =>
        have hinvmid2 := rstep_inv (RStep.closeStep mid hwg hcl) hinvmid
        have ht2 : t2 = [] := rtrace_closed_nil htl hinvmid2 rfl
        obtain ⟨hwgc, hfin, _⟩ := hinvmid
        have hall : ∀ i, (mid.getW i).finished = true :=
          unfinishedCount_zero mid (by rw [← hwgc, hwg])
        have hrem : ∀ i, (mid.getW i).rem = [] := fun i => hfin i (hall i)
        have hsends := rtrace_rem h1
        refine ⟨ht2, ?_, ?_, ?_⟩
        · have h3 := hsends .createdW
          rw [hrem .createdW] at h3
          simpa [initState, RState.getW] using h3.symm
        · have h3 := hsends .deletedW
          rw [hrem .deletedW] at h3
          simpa [initState, RState.getW] using h3.symm
        · have h3 := hsends .modifiedW
          rw [hrem .modifiedW] at h3
          simpa [initState, RState.getW] using h3.symm
  · intro hnostep
    by_contra hcl
    simp only [Bool.not_eq_true] at hcl
    have hinvs := rtrace_inv htr hinv0
    obtain ⟨e, s2, hstep⟩ := rstate_progress hinvs hcl
    exact hnostep e s2 hstep

/-- Witness for C2: a concrete completed execution on empty inputs (three
wg.Done events then the close) has exactly one close event, and its close
decomposition has nothing after the close. -/
theorem c2_rectify_close_protocol_witness :
    ([REvent.finish .createdW, REvent.finish .deletedW, REvent.finish .modifiedW,
      REvent.closeEvt].count REvent.closeEvt) = 1 ∧
    ((((initState [] [] []).finishW .createdW).finishW .deletedW).finishW
      .modifiedW).closeC.closed = true := by
  have htr : RTrace (initState [] [] [])
      [REvent.finish .createdW, REvent.finish .deletedW, REvent.finish .modifiedW,
        REvent.closeEvt]
      ((((initState [] [] []).finishW .createdW).finishW .deletedW).finishW
        .modifiedW).closeC :=
    RTrace.cons (RStep.finish _ _ rfl rfl)
      (RTrace.cons (RStep.finish _ _ rfl rfl)
        (RTrace.cons (RStep.finish _ _ rfl rfl)
          (RTrace.cons (RStep.closeStep _ rfl rfl) (RTrace.nil _))))
  have h := c2_rectify_close_protocol [] [] [] _ _ htr
  constructor
  · rw [h.1]
    rfl
  · rfl

theorem insertName_metadata (db : DB) (mid : Nat) (name : String) :
    (insertName db mid name).metadata = db.metadata := rfl

theorem insertMetadata_mem (db : DB) (lid : Nat) (etag cname ver : String) :
    ∃ m ∈ (insertMetadata db lid etag cname ver).1.metadata, m.canonicalName = cname := by
  refine ⟨⟨db.nextMetadataId, lid, etag, cname, ver⟩, ?_, rfl⟩
  simp [insertMetadata]

theorem dbInsert_ok (ext : NCExt) (db : DB) (sv : SourceVersion) (inn etag : String)
    (ref : DockerRef) (href : ext.parseNamed inn = some ref) :
    ∃ db5 nid lid mid,
      dbInsert ext db sv inn etag =
        (.ok db5,
         [.insRepoName ref.name, .insLocation sv.repoURL sv.repoOffset,
          .insRTL nid lid, .insMetadata lid etag inn sv.version.formatMMPPre,
          .insName mid inn]) ∧
      ∃ m ∈ db5.metadata, m.canonicalName = inn := by
  unfold dbInsert
  rw [href]
  refine ⟨_, _, _, _, rfl, ?_⟩
  rw [insertName_metadata]
  exact insertMetadata_mem _ _ _ _ _

theorem dbAddNames_ok (db : DB) (cn : String) (ins : List String)
    (m : MetadataRow) (hm : m ∈ db.metadata) (hcn : m.canonicalName = cn) :
    ∃ (m2 : MetadataRow) (db2 : DB), dbAddNames db cn ins =
      (.ok db2, ins.map (fun n => .insName m2.id n)) := by
  unfold dbAddNames
  cases hf : db.metadata.find? (fun m => m.canonicalName == cn) with
  | none =>
    exfalso
    have := List.find?_eq_none.mp hf m hm
    simp [hcn] at this
  | some m2 => exact ⟨m2, _, rfl⟩

theorem gsvAfterLookup_notModified (ext : NCExt) (db : DB) (inn : String)
    (sv : SourceVersion) (etag : String)
    (hreg : ext.getImageMetadata inn etag = .error .notModified) :
    getSourceVersionAfterLookup ext db inn sv etag =
      (.ok sv, db, [.regGetImageMetadata inn etag]) := by
  unfold getSourceVersionAfterLookup
  rw [hreg]

theorem gsvAfterLookup_regError (ext : NCExt) (db : DB) (inn : String)
    (sv : SourceVersion) (etag : String) (e : NCErr)
    (hreg : ext.getImageMetadata inn etag = .error e) (hne : e ≠ .notModified) :
    getSourceVersionAfterLookup ext db inn sv etag =
      (.error e, db, [.regGetImageMetadata inn etag]) := by
  unfold getSourceVersionAfterLookup
  rw [hreg]
  cases e with
  | notModified => exact absurd rfl hne
  | noImageNameFound sv2 => rfl
  | noSourceVersionFound s2 => rfl
  | otherErr msg => rfl

theorem gsvAfterLookup_fetches (ext : NCExt) (db : DB) (inn : String)
    (sv : SourceVersion) (etag : String) :
    (getSourceVersionAfterLookup ext db inn sv etag).2.2.filter
      (fun e => isRegFetch e) = [.regGetImageMetadata inn etag] := by
  unfold getSourceVersionAfterLookup
  cases hreg : ext.getImageMetadata inn etag with
  | error e => cases e <;> simp [isRegFetch]
  | ok md =>
    dsimp only
    cases hsv : SourceVersionFromLabels md.labels with
    | error e2 => simp [isRegFetch]
    | ok newSV =>
      dsimp only
      cases href : ext.parseNamed md.canonicalName with
      | none =>
        have hdb : dbInsert ext db newSV md.canonicalName md.etag =
            (.error (.otherErr ("bad image name " ++ md.canonicalName)), []) := by
          unfold dbInsert
          rw [href]
        rw [hdb]
        simp [isRegFetch]
      | some ref =>
        obtain ⟨db5, nid, lid, mid, hdb, m, hm, hcn⟩ :=
          dbInsert_ok ext db newSV md.canonicalName md.etag ref href
        rw [hdb]
        dsimp only
        obtain ⟨m2, db2, hadd⟩ :=
          dbAddNames_ok db5 md.canonicalName md.allNames m hm hcn
        rw [hadd]
        simp [isRegFetch, List.filter_map, Function.comp]

theorem gsvAfterLookup_fresh (ext : NCExt) (db : DB) (inn : String)
    (sv : SourceVersion) (etag : String) (md : ImageMetadata)
    (newSV : SourceVersion) (ref : DockerRef)
    (hreg : ext.getImageMetadata inn etag = .ok md)
    (hsv : SourceVersionFromLabels md.labels = .ok newSV)
    (href : ext.parseNamed md.canonicalName = some ref) :
    (getSourceVersionAfterLookup ext db inn sv etag).1 = .ok newSV ∧
    (getSourceVersionAfterLookup ext db inn sv etag).2.2.countP
      (fun e => isMetaInsert e) = 1 := by
  unfold getSourceVersionAfterLookup
  rw [hreg]
  dsimp only
  rw [hsv]
  dsimp only
  obtain ⟨db5, nid, lid, mid, hdb, m, hm, hcn⟩ :=
    dbInsert_ok ext db newSV md.canonicalName md.etag ref href
  rw [hdb]
  dsimp only
  obtain ⟨m2, db2, hadd⟩ :=
    dbAddNames_ok db5 md.canonicalName md.allNames m hm hcn
  rw [hadd]
  refine ⟨rfl, ?_⟩
  simp [isMetaInsert, List.countP_cons, List.countP_append, List.countP_map,
    Function.comp]

theorem gsv_cold (ext : NCExt) (db : DB) (inn : String)
    (hq : dbQueryOnName db inn = .error (.noSourceVersionFound inn)) :
    GetSourceVersion ext db inn = getSourceVersionAfterLookup ext db inn svZero "" := by
  unfold GetSourceVersion
  rw [hq]

theorem gsv_warm (ext : NCExt) (db : DB) (inn : String)
    (etag repo offset version cname : String) (sv : SourceVersion)
    (hq : dbQueryOnName db inn = .ok (etag, repo, offset, version, cname))
    (hmk : makeSourceVersion repo offset version = .ok sv) :
    GetSourceVersion ext db inn = getSourceVersionAfterLookup ext db inn sv etag := by
  unfold GetSourceVersion
  rw [hq]
  dsimp only
  rw [hmk]

/-- C6: GetSourceVersion on a cold cache (no row for the name) performs
exactly one registry GetImageMetadata call, with an empty etag, and, when the
registry returns fresh metadata whose labels parse and whose canonical name
is a valid docker reference, exactly one metadata insert, returning the
freshly parsed SourceVersion; on a warm cache whose row parses, a
not-modified registry answer returns the cached SourceVersion unchanged with
no error and no write; any other registry error is returned to the caller
unchanged with no write. -/
theorem c6_get_source_version (ext : NCExt) (db : DB) (inn : String) :
    (dbQueryOnName db inn = .error (.noSourceVersionFound inn) →
      (GetSourceVersion ext db inn).2.2.filter (fun e => isRegFetch e) =
        [.regGetImageMetadata inn ""] ∧
      (∀ md newSV ref,
        ext.getImageMetadata inn "" = .ok md →
        SourceVersionFromLabels md.labels = .ok newSV →
        ext.parseNamed md.canonicalName = some ref →
        (GetSourceVersion ext db inn).1 = .ok newSV ∧
        (GetSourceVersion ext db inn).2.2.countP (fun e => isMetaInsert e) = 1) ∧
      (∀ e, ext.getImageMetadata inn "" = .error e → e ≠ .notModified →
        GetSourceVersion ext db inn = (.error e, db, [.regGetImageMetadata inn ""]))) ∧
    (∀ (etag repo offset version cname : String) (sv : SourceVersion),
      dbQueryOnName db inn = .ok (etag, repo, offset, version, cname) →
      makeSourceVersion repo offset version = .ok sv →
      (ext.getImageMetadata inn etag = .error .notModified →
        GetSourceVersion ext db inn = (.ok sv, db, [.regGetImageMetadata inn etag])) ∧
      (∀ e, ext.getImageMetadata inn etag = .error e → e ≠ .notModified →
        GetSourceVersion ext db inn = (.error e, db, [.regGetImageMetadata inn etag]))) := by
  constructor
  · intro hq
    rw [gsv_cold ext db inn hq]
    refine ⟨gsvAfterLookup_fetches ext db inn svZero "", ?_, ?_⟩
    · intro md newSV ref hreg hsv href
      exact gsvAfterLookup_fresh ext db inn svZero "" md newSV ref hreg hsv href
    · intro e hreg hne
      exact gsvAfterLookup_regError ext db inn svZero "" e hreg hne
  · intro etag repo offset version cname sv hq hmk
    rw [gsv_warm ext db inn etag repo offset version cname sv hq hmk]
    refine ⟨?_, ?_⟩
    · intro hreg
      exact gsvAfterLookup_notModified ext db inn sv etag hreg
    · intro e hreg hne
      exact gsvAfterLookup_regError ext db inn sv etag e hreg hne

/-- Witness for C6: on the empty store with a registry serving fresh
metadata, the single fetch carries an empty etag and exactly one metadata row
is inserted; on the store that call produced, a not-modified registry answer
returns the cached SourceVersion with no write; and an unexpected registry
error on the empty store is returned unchanged. -/
theorem c6_get_source_version_witness :
    (GetSourceVersion extW1 emptyDB "repo/img:1.0").2.2.filter
      (fun e => isRegFetch e) = [.regGetImageMetadata "repo/img:1.0" ""] ∧
    (GetSourceVersion extW1 emptyDB "repo/img:1.0").1 =
      .ok ⟨"github.com/x/y", ⟨1, 2, 3, "", "abc"⟩, "sub"⟩ ∧
    (GetSourceVersion extW1 emptyDB "repo/img:1.0").2.2.countP
      (fun e => isMetaInsert e) = 1 ∧
    GetSourceVersion extW2 (GetSourceVersion extW1 emptyDB "repo/img:1.0").2.1
      "repo/img:1.0" =
      (.ok svWoff, (GetSourceVersion extW1 emptyDB "repo/img:1.0").2.1,
       [.regGetImageMetadata "repo/img:1.0" "etag2"]) ∧
    GetSourceVersion extW0 emptyDB "repo/img:1.0" =
      (.error (.otherErr "unused"), emptyDB,
       [.regGetImageMetadata "repo/img:1.0" ""]) := by
  have h1 := c6_get_source_version extW1 emptyDB "repo/img:1.0"
  have hcold : dbQueryOnName emptyDB "repo/img:1.0" =
      .error (.noSourceVersionFound "repo/img:1.0") := rfl
  obtain ⟨hfetch, hfresh, _⟩ := h1.1 hcold
  have hfr := hfresh mdW ⟨"github.com/x/y", ⟨1, 2, 3, "", "abc"⟩, "sub"⟩ ⟨"repo/img:1.0"⟩
    rfl rfl rfl
  refine ⟨hfetch, hfr.1, hfr.2, ?_, ?_⟩
  · have h2 := c6_get_source_version extW2
      (GetSourceVersion extW1 emptyDB "repo/img:1.0").2.1 "repo/img:1.0"
    have hwarm := h2.2 "etag2" "github.com/x/y" "sub" "1.2.3" "repo/img:1.0" svWoff
      (by rfl) (by rfl)
    exact hwarm.1 rfl
  · have h3 := c6_get_source_version extW0 emptyDB "repo/img:1.0"
    obtain ⟨_, _, herr⟩ := h3.1 hcold
    exact herr (.otherErr "unused") rfl (by decide)

theorem gsvAfterLookup_no_harvest_events (ext : NCExt) (db : DB) (inn : String)
    (sv : SourceVersion) (etag : String) :
    (getSourceVersionAfterLookup ext db inn sv etag).2.2.countP
      (fun e => isLookupSV e) = 0 ∧
    (getSourceVersionAfterLookup ext db inn sv etag).2.2.countP
      (fun e => isAllTags e) = 0 := by
  unfold getSourceVersionAfterLookup
  cases hreg : ext.getImageMetadata inn etag with
  | error e => cases e <;> simp [isLookupSV, isAllTags]
  | ok md =>
    dsimp only
    cases hsv : SourceVersionFromLabels md.labels with
    | error e2 => simp [isLookupSV, isAllTags]
    | ok newSV =>
      dsimp only
      cases href : ext.parseNamed md.canonicalName with
      | none =>
        have hdb : dbInsert ext db newSV md.canonicalName md.etag =
            (.error (.otherErr ("bad image name " ++ md.canonicalName)), []) := by
          unfold dbInsert
          rw [href]
        rw [hdb]
        simp [isLookupSV, isAllTags]
      | some ref =>
        obtain ⟨db5, nid, lid, mid, hdb, m, hm, hcn⟩ :=
          dbInsert_ok ext db newSV md.canonicalName md.etag ref href
        rw [hdb]
        dsimp only
        obtain ⟨m2, db2, hadd⟩ :=
          dbAddNames_ok db5 md.canonicalName md.allNames m hm hcn
        rw [hadd]
        simp [isLookupSV, isAllTags, List.countP_cons, List.countP_append,
          List.countP_map, Function.comp]

theorem gsv_no_harvest_events (ext : NCExt) (db : DB) (inn : String) :
    (GetSourceVersion ext db inn).2.2.countP (fun e => isLookupSV e) = 0 ∧
    (GetSourceVersion ext db inn).2.2.countP (fun e => isAllTags e) = 0 := by
  unfold GetSourceVersion
  cases hq : dbQueryOnName db inn with
  | error e =>
    cases e with
    | noSourceVersionFound s =>
      exact gsvAfterLookup_no_harvest_events ext db inn svZero ""
    | notModified => simp [isLookupSV, isAllTags]
    | noImageNameFound sv2 => simp [isLookupSV, isAllTags]
    | otherErr msg => simp [isLookupSV, isAllTags]
  | ok t =>
    obtain ⟨etag, repo, offset, version, cname⟩ := t
    dsimp only
    cases hmk : makeSourceVersion repo offset version with
    | error e => simp [isLookupSV, isAllTags]
    | ok sv => exact gsvAfterLookup_no_harvest_events ext db inn sv etag

theorem harvestTags_events (ext : NCExt) (ref : DockerRef) (ts : List String) :
    ∀ db : DB, (harvestTags ext ref db ts).2.countP (fun e => isLookupSV e) = 0 ∧
      (harvestTags ext ref db ts).2.countP (fun e => isAllTags e) = 0 := by
  induction ts with
  | nil => intro db; simp [harvestTags]
  | cons t ts ih =>
    intro db
    unfold harvestTags
    cases hw : ext.withTag ref t with
    | none => exact ih db
    | some innStr =>
      dsimp only
      obtain ⟨ih1, ih2⟩ := ih (GetSourceVersion ext db innStr).2.1
      obtain ⟨hg1, hg2⟩ := gsv_no_harvest_events ext db innStr
      constructor <;> simp [List.countP_append, ih1, ih2, hg1, hg2]

theorem harvestRepos_ok (ext : NCExt) (repos : List String) :
    ∀ db : DB, (∀ r ∈ repos, ∃ ref, ext.parseNamed r = some ref) →
    ∃ db2 evs, harvestRepos ext db repos = (.ok (), db2, evs) ∧
      evs.filter (fun e => isAllTags e) = repos.map (fun r => .regAllTags r) ∧
      evs.countP (fun e => isLookupSV e) = 0 := by
  induction repos with
  | nil =>
    intro db _
    exact ⟨db, [], rfl, rfl, rfl⟩
  | cons r rs ih =>
    intro db hp
    obtain ⟨ref, href⟩ := hp r (List.mem_cons_self r rs)
    unfold harvestRepos
    rw [href]
    dsimp only
    cases hat : ext.allTags r with
    | error e =>
      obtain ⟨db2, evs, heq, hfilter, hcount⟩ :=
        ih db (fun r2 hr2 => hp r2 (List.mem_cons_of_mem r hr2))
      rw [heq]
      refine ⟨db2, .regAllTags r :: evs, rfl, ?_, ?_⟩
      · simp [List.filter_cons, List.map_cons, hfilter,
          (show isAllTags (NCEvent.regAllTags r) = true from rfl)]
      · simp [List.countP_cons, hcount,
          (show isLookupSV (NCEvent.regAllTags r) = false from rfl)]
    | ok ts =>
      dsimp only
      obtain ⟨ht1, ht2⟩ := harvestTags_events ext ref ts db
      obtain ⟨db2, evs, heq, hfilter, hcount⟩ :=
        ih (harvestTags ext ref db ts).1 (fun r2 hr2 => hp r2 (List.mem_cons_of_mem r hr2))
      rw [heq]
      refine ⟨db2, .regAllTags r :: ((harvestTags ext ref db ts).2 ++ evs), rfl, ?_, ?_⟩
      · have htf : (harvestTags ext ref db ts).2.filter (fun e => isAllTags e) = [] := by
          have h2 := ht2
          rw [List.countP_eq_length_filter] at h2
          exact List.length_eq_zero.mp h2
        simp [List.filter_cons, List.filter_append, List.map_cons, htf, hfilter,
          (show isAllTags (NCEvent.regAllTags r) = true from rfl)]
      · simp [List.countP_cons, List.countP_append, ht1, hcount,
          (show isLookupSV (NCEvent.regAllTags r) = false from rfl)]

theorem dbQueryOnSV_error_shape (db : DB) (sv : SourceVersion) (e : NCErr)
    (h : dbQueryOnSV db sv = .error e) : e = .noImageNameFound sv := by
  unfold dbQueryOnSV at h
  split at h
  · injection h with h2
    exact h2.symm
  · cases h

/-- C7 (amended): on a first-lookup outcome that is any error other than a
no-image-name-found signal, no harvest is attempted and the error is returned
unchanged with the store untouched; when the initial lookup misses with
NoImageNameFound and at least one alias repository is recorded for the
location (and every recorded repository name parses), the harvest runs (one
AllTags call per recorded repository, per-tag errors swallowed), the lookup
is retried exactly once (two lookup events in total), and a still-absent name
fails with NoImageNameFound carrying the requested SourceVersion; when the
repository enumeration itself fails (in particular with no recorded alias
repository), that error is returned without any retry. -/
theorem c7_get_image_name (ext : NCExt) (db : DB) (sv : SourceVersion) :
    (∀ e, (∀ sv2, e ≠ .noImageNameFound sv2) →
      getImageNameAfterLookup ext db sv (.error e) = (.error e, db, [])) ∧
    (dbQueryOnSV db sv = .error (.noImageNameFound sv) →
      (∀ e2, dbQueryOnSL db sv.canonicalName = .error e2 →
        GetImageName ext db sv = (.error e2, db, [.lookupSV sv])) ∧
      (∀ repos, dbQueryOnSL db sv.canonicalName = .ok repos →
        (∀ r ∈ repos, ∃ ref, ext.parseNamed r = some ref) →
        ∃ db2 evs,
          harvest ext db sv.canonicalName = (.ok (), db2, evs) ∧
          evs.filter (fun e => isAllTags e) = repos.map (fun r => .regAllTags r) ∧
          GetImageName ext db sv =
            ((dbQueryOnSV db2 sv).map (fun p => p.1), db2,
              .lookupSV sv :: (evs ++ [.lookupSV sv])) ∧
          (GetImageName ext db sv).2.2.countP (fun e => isLookupSV e) = 2 ∧
          (dbQueryOnSV db2 sv = .error (.noImageNameFound sv) →
            (GetImageName ext db sv).1 = .error (.noImageNameFound sv)))) := by
  constructor
  · intro e hne
    unfold getImageNameAfterLookup
    cases e with
    | noImageNameFound x => exact absurd rfl (hne x)
    | notModified => rfl
    | noSourceVersionFound s => rfl
    | otherErr msg => rfl
  · intro hq
    constructor
    · intro e2 hsl
      have hh : harvest ext db sv.canonicalName = (.error e2, db, []) := by
        unfold harvest
        rw [hsl]
      unfold GetImageName
      rw [hq]
      unfold getImageNameAfterLookup
      dsimp only
      rw [hh]
    · intro repos hsl hparse
      obtain ⟨db2, evs, hh0, hfilter, hcount⟩ := harvestRepos_ok ext repos db hparse
      have hh : harvest ext db sv.canonicalName = (.ok (), db2, evs) := by
        unfold harvest
        rw [hsl]
        exact hh0
      have hmain : GetImageName ext db sv =
          ((dbQueryOnSV db2 sv).map (fun p => p.1), db2,
            .lookupSV sv :: (evs ++ [.lookupSV sv])) := by
        unfold GetImageName
        rw [hq]
        unfold getImageNameAfterLookup
        dsimp only
        rw [hh]
        dsimp only
        cases h2 : dbQueryOnSV db2 sv with
        | error e2 => simp [Except.map]
        | ok p =>
          obtain ⟨cn, ins⟩ := p
          simp [Except.map]
      refine ⟨db2, evs, hh, hfilter, hmain, ?_, ?_⟩
      · rw [hmain]
        have h1 : isLookupSV (NCEvent.lookupSV sv) = true := rfl
        simp only [List.countP_cons, List.countP_append, List.countP_nil, hcount, h1]
        norm_num
      · intro habsent
        rw [hmain]
        dsimp only
        rw [habsent]
        rfl

/-- Counterexample for C7 as stated: on the empty store, the initial lookup
for svWoff misses with NoImageNameFound, yet GetImageName performs no retry
(one lookup event) and fails with the untyped no-repos-found error of the
alias enumeration instead of NoImageNameFound. -/
theorem c7_counterexample :
    dbQueryOnSV emptyDB svWoff = .error (.noImageNameFound svWoff) ∧
    (GetImageName extW0 emptyDB svWoff).1 =
      .error (.otherErr ("no repos found for " ++
        SourceLocation.string ⟨"github.com/x/y", "sub"⟩)) ∧
    (GetImageName extW0 emptyDB svWoff).1 ≠ .error (.noImageNameFound svWoff) ∧
    (GetImageName extW0 emptyDB svWoff).2.2.countP (fun e => isLookupSV e) = 1 := by
  refine ⟨rfl, rfl, ?_, rfl⟩
  intro h
  have h0 : (GetImageName extW0 emptyDB svWoff).1 =
      .error (.otherErr ("no repos found for " ++
        SourceLocation.string ⟨"github.com/x/y", "sub"⟩)) := rfl
  rw [h0] at h
  injection h with h2
  cases h2

/-- Witness for C7: on a store holding another version of the same location,
the initial lookup misses, the harvest enumerates the one recorded alias
repository, the lookup is retried once, and the final failure is
NoImageNameFound for the requested SourceVersion; and an initial-lookup
error of any other shape is returned unchanged with no harvest. -/
theorem c7_get_image_name_witness :
    (GetImageName extW0 dbW svWoff).1 = .error (.noImageNameFound svWoff) ∧
    (GetImageName extW0 dbW svWoff).2.2.countP (fun e => isLookupSV e) = 2 ∧
    getImageNameAfterLookup extW0 dbW svWoff (.error (.otherErr "db fault")) =
      (.error (.otherErr "db fault"), dbW, []) := by
  have h := c7_get_image_name extW0 dbW svWoff
  have hq : dbQueryOnSV dbW svWoff = .error (.noImageNameFound svWoff) := rfl
  have hsl : dbQueryOnSL dbW svWoff.canonicalName = .ok ["repo/img:0.9"] := rfl
  have hparse : ∀ r ∈ ["repo/img:0.9"], ∃ ref, extW0.parseNamed r = some ref := by
    intro r hr
    exact ⟨⟨r⟩, rfl⟩
  obtain ⟨db2, evs, hh, hfilter, hmain, hcount, habsent⟩ :=
    (h.2 hq).2 ["repo/img:0.9"] hsl hparse
  have hdb2 : (harvest extW0 dbW svWoff.canonicalName).2.1 = db2 := by
    rw [hh]
  refine ⟨?_, hcount, ?_⟩
  · refine habsent ?_
    rw [← hdb2]
    rfl
  · exact h.1 (.otherErr "db fault") (fun sv2 => by simp)

theorem svJoinRows_single (db5 : DB) (sv : SourceVersion) (inn : String)
    {etag ver : String} {L M N : Nat} {preL : List LocationRow}
    {preM : List MetadataRow} {preN : List NameRow}
    (hloc : db5.locations = preL ++ [⟨L, sv.repoURL, sv.repoOffset⟩])
    (hmet : db5.metadata = preM ++ [⟨M, L, etag, inn, ver⟩])
    (hnam : db5.names = preN ++ [⟨N, M, inn⟩])
    (hpre1 : ∀ l ∈ preL, ¬(l.repo = sv.repoURL ∧ l.offset = sv.repoOffset))
    (hm1 : ∀ m ∈ preM, m.locationId ≠ L)
    (hm2 : ∀ m ∈ preM, m.id ≠ M)
    (hn1 : ∀ n ∈ preN, n.metadataId ≠ M)
    (hver : ver = sv.version.vString) :
    svJoinRows db5 sv = [(inn, inn)] := by
  unfold svJoinRows
  rw [hnam, hmet, hloc, List.flatMap_append]
  have hnil : preN.flatMap (fun (n : NameRow) =>
      (preM ++ [(⟨M, L, etag, inn, ver⟩ : MetadataRow)]).flatMap (fun (m : MetadataRow) =>
        (preL ++ [(⟨L, sv.repoURL, sv.repoOffset⟩ : LocationRow)]).filterMap
          (fun (l : LocationRow) =>
          if n.metadataId == m.id && m.locationId == l.id &&
              l.repo == sv.repoURL && l.offset == sv.repoOffset &&
              m.version == sv.version.vString then
            some (m.canonicalName, n.name)
          else none))) = [] := by
    apply List.bind_eq_nil.mpr
    intro n hn
    apply List.bind_eq_nil.mpr
    intro m hm
    apply List.filterMap_eq_nil_iff.mpr
    intro l hl
    rcases List.mem_append.mp hm with hmPre | hmNew
    · rcases List.mem_append.mp hl with hlPre | hlNew
      · have h5 := hpre1 l hlPre
        by_cases hr : l.repo = sv.repoURL
        · have ho : l.offset ≠ sv.repoOffset := fun h => h5 ⟨hr, h⟩
          simp [beq_eq_false_iff_ne.mpr ho]
        · simp [beq_eq_false_iff_ne.mpr hr]
      · rw [List.mem_singleton] at hlNew
        subst hlNew
        simp [beq_eq_false_iff_ne.mpr (hm1 m hmPre)]
    · rw [List.mem_singleton] at hmNew
      subst hmNew
      simp [beq_eq_false_iff_ne.mpr (hn1 n hn)]
  rw [hnil, List.nil_append, List.flatMap_cons, List.flatMap_nil, List.append_nil,
    List.flatMap_append]
  have hnil2 : preM.flatMap (fun (m : MetadataRow) =>
      (preL ++ [(⟨L, sv.repoURL, sv.repoOffset⟩ : LocationRow)]).filterMap
        (fun (l : LocationRow) =>
        if (⟨N, M, inn⟩ : NameRow).metadataId == m.id && m.locationId == l.id &&
            l.repo == sv.repoURL && l.offset == sv.repoOffset &&
            m.version == sv.version.vString then
          some (m.canonicalName, (⟨N, M, inn⟩ : NameRow).name)
        else none)) = [] := by
    apply List.bind_eq_nil.mpr
    intro m hm
    apply List.filterMap_eq_nil_iff.mpr
    intro l hl
    have hne : M ≠ m.id := fun h => hm2 m hm h.symm
    simp [beq_eq_false_iff_ne.mpr hne]
  rw [hnil2, List.nil_append, List.flatMap_cons, List.flatMap_nil, List.append_nil,
    List.filterMap_append]
  have hnil3 : preL.filterMap (fun (l : LocationRow) =>
      if (⟨N, M, inn⟩ : NameRow).metadataId == (⟨M, L, etag, inn, ver⟩ : MetadataRow).id &&
          (⟨M, L, etag, inn, ver⟩ : MetadataRow).locationId == l.id &&
          l.repo == sv.repoURL && l.offset == sv.repoOffset &&
          (⟨M, L, etag, inn, ver⟩ : MetadataRow).version == sv.version.vString then
        some ((⟨M, L, etag, inn, ver⟩ : MetadataRow).canonicalName,
          (⟨N, M, inn⟩ : NameRow).name)
      else none) = [] := by
    apply List.filterMap_eq_nil_iff.mpr
    intro l hl
    have h5 := hpre1 l hl
    by_cases hr : l.repo = sv.repoURL
    · have ho : l.offset ≠ sv.repoOffset := fun h => h5 ⟨hr, h⟩
      simp [beq_eq_false_iff_ne.mpr ho]
    · simp [beq_eq_false_iff_ne.mpr hr]
  rw [hnil3, List.nil_append]
  simp [hver]

theorem vString_of_empty_meta (v : SemvVersion) (h : v.meta = "") :
    v.vString = v.formatMMPPre := by
  unfold SemvVersion.vString
  rw [h]
  simp [String.append_empty]

/-- C10: for a SourceVersion whose version carries no build metadata and a
valid image name, Insert followed by GetImageName on the resulting store
returns that image name with no registry interaction (the only recorded event
is the local lookup); the store is assumed well-formed (all row ids below the
autoincrement counters), as every store built by the insert operations is.
The no-build-metadata precondition matters because the insert stores the
version in its major.minor.patch pre-release format while the lookup queries
on the full version rendering. -/
theorem c10_insert_get_image_name (ext : NCExt) (db : DB) (sv : SourceVersion)
    (inn etag : String) (ref : DockerRef)
    (hmeta : sv.version.meta = "")
    (href : ext.parseNamed inn = some ref)
    (hinv : DBInv db) :
    ∃ db5, (dbInsert ext db sv inn etag).1 = .ok db5 ∧
      GetImageName ext db5 sv = (.ok inn, db5, [.lookupSV sv]) := by
  obtain ⟨hinvL, hinvM, hinvN⟩ := hinv
  unfold dbInsert
  rw [href]
  dsimp only
  refine ⟨_, rfl, ?_⟩
  have hver : sv.version.formatMMPPre = sv.version.vString :=
    (vString_of_empty_meta sv.version hmeta).symm
  have hrows : svJoinRows (insertName (insertMetadata (insertRTL (insertLocation
      (insertRepoName db ref.name).1 sv.repoURL sv.repoOffset).1
      (insertRepoName db ref.name).2 (insertLocation (insertRepoName db ref.name).1
      sv.repoURL sv.repoOffset).2) (insertLocation (insertRepoName db ref.name).1
      sv.repoURL sv.repoOffset).2 etag inn sv.version.formatMMPPre).1
      (insertMetadata (insertRTL (insertLocation (insertRepoName db ref.name).1
      sv.repoURL sv.repoOffset).1 (insertRepoName db ref.name).2
      (insertLocation (insertRepoName db ref.name).1 sv.repoURL sv.repoOffset).2)
      (insertLocation (insertRepoName db ref.name).1 sv.repoURL sv.repoOffset).2
      etag inn sv.version.formatMMPPre).2 inn) sv = [(inn, inn)] := by
    refine svJoinRows_single _ sv inn rfl rfl rfl ?_ ?_ ?_ ?_ hver
    · intro l hl hrep
      have h2 := (List.mem_filter.mp hl).2
      obtain ⟨h3, h4⟩ := hrep
      simp [h3, h4] at h2
    · intro m hm
      have hmem : m ∈ db.metadata := (List.mem_filter.mp (List.mem_filter.mp hm).1).1
      have h2 := (hinvM m hmem).2
      exact Nat.ne_of_lt h2
    · intro m hm
      have hmem : m ∈ db.metadata := (List.mem_filter.mp (List.mem_filter.mp hm).1).1
      have h2 := (hinvM m hmem).1
      exact Nat.ne_of_lt h2
    · intro n hn
      have hmem : n ∈ db.names :=
        (List.mem_filter.mp (List.mem_filter.mp (List.mem_filter.mp hn).1).1).1
      have h2 := hinvN n hmem
      exact Nat.ne_of_lt h2
  have hquery : dbQueryOnSV (insertName (insertMetadata (insertRTL (insertLocation
      (insertRepoName db ref.name).1 sv.repoURL sv.repoOffset).1
      (insertRepoName db ref.name).2 (insertLocation (insertRepoName db ref.name).1
      sv.repoURL sv.repoOffset).2) (insertLocation (insertRepoName db ref.name).1
      sv.repoURL sv.repoOffset).2 etag inn sv.version.formatMMPPre).1
      (insertMetadata (insertRTL (insertLocation (insertRepoName db ref.name).1
      sv.repoURL sv.repoOffset).1 (insertRepoName db ref.name).2
      (insertLocation (insertRepoName db ref.name).1 sv.repoURL sv.repoOffset).2)
      (insertLocation (insertRepoName db ref.name).1 sv.repoURL sv.repoOffset).2
      etag inn sv.version.formatMMPPre).2 inn) sv = .ok (inn, [inn]) := by
    unfold dbQueryOnSV
    simp [hrows]
  unfold GetImageName getImageNameAfterLookup
  rw [hquery]

/-- Witness for C10: inserting the image name of the metadata-free svW into
the empty store and asking it back returns that name with no registry event,
only the local lookup. -/
theorem c10_insert_get_image_name_witness :
    (dbInsert extW0 emptyDB svW "repo/img:1.0" "e").1 = .ok dbW10 ∧
    GetImageName extW0 dbW10 svW = (.ok "repo/img:1.0", dbW10, [.lookupSV svW]) := by
  obtain ⟨db5, h1, h2⟩ := c10_insert_get_image_name extW0 emptyDB svW "repo/img:1.0" "e"
    ⟨"repo/img:1.0"⟩ rfl rfl (by simp [DBInv, emptyDB])
  have h3 : (dbInsert extW0 emptyDB svW "repo/img:1.0" "e").1 = .ok dbW10 := rfl
  rw [h1] at h3
  injection h3 with h4
  rw [h4] at h2
  exact ⟨rfl, h2⟩

end Sous
